import Mathlib

/-
Verification of the core of Typpete's `frontend/z3_types.py`:
the type-universe datatype (`declare_type_sort`), the class-hierarchy
worklist construction (`Z3Types.create_class_tree`), the subtype-axiom
generator (`Z3Types.create_subtype_axioms` and its union helpers), and the
attribute-table builder (`create_classes_attributes`).

Modelling conventions:
* The Z3 algebraic datatype `Type` built by `declare_type_sort` is embedded
  as the inductive `Ty` below.  The per-arity Z3 constructors
  `tuple_0 .. tuple_T`, `func_0 .. func_F`, `union_2 .. union_U` are
  embedded as the list-carrying constructors `tupleK`, `funcK`, `unionK`;
  a Z3 term `tuple_k(t1..tk)` corresponds to `tupleK` applied to the list
  `[t1, .., tk]` of length `k`, and the arity bounds from the configuration
  appear as explicit length conditions in the formulas.
* A Z3 accessor applied under a guard `x == C(acc_1(x), .., acc_k(x))`
  (which in Z3 datatype semantics holds iff `x` is built from constructor
  `C`) is translated by existentially quantifying the accessor values:
  `∃ args, x = C args ∧ ...`.  Every accessor use in the source is guarded
  in this way, so no unguarded (underspecified) accessor application needs
  a translation.
* The quantified axioms generated per class node are translated as
  predicates over an arbitrary interpretation `S` of the uninterpreted
  function `subtype`; `patterns=[...]` arguments only guide quantifier
  instantiation in the solver and have no logical content.
-/

mutual

/-- Embedding of the Z3 datatype `Type` declared by `declare_type_sort`
(z3_types.py lines 379-435): scalar constructors, `type` with its
`instance` field, numbers, sequences, tuples of each arity (`tupleK` with
the argument list), `list`/`set`/`dict` with element fields, functions of
each arity (`funcK` with the integer default-argument count, argument list
and return type), one constructor per user class (`classC` with the class
name), and unions of each arity (`unionK` with the member list). -/
inductive Ty where
  | object
  | type_ (i : Ty)
  | none_
  | complex
  | float
  | int
  | bool
  | sequence
  | str_
  | bytes_
  | tuple_
  | tupleK (args : TyList)
  | listT (t : Ty)
  | setT (t : Ty)
  | dictT (k v : Ty)
  | funcK (defaults : Int) (args : TyList) (ret : Ty)
  | classC (name : String)
  | unionK (args : TyList)
  deriving DecidableEq

/-- Lists of `Ty`, as a mutual inductive so that equality and all
recursions stay structural. -/
inductive TyList where
  | nil
  | cons (head : Ty) (tail : TyList)
  deriving DecidableEq

end

/-- View a `TyList` as an ordinary list. -/
def TyList.toList : TyList → List Ty
  | .nil => []
  | .cons a as => a :: as.toList

/-- Build a `TyList` from an ordinary list. -/
def TyList.ofList : List Ty → TyList
  | [] => .nil
  | a :: as => .cons a (TyList.ofList as)

/-- Length of a `TyList`. -/
def TyList.len : TyList → Nat
  | .nil => 0
  | .cons _ as => as.len + 1

/-- One-element `TyList`. -/
def tyl1 (a : Ty) : TyList := .cons a .nil

/-- Two-element `TyList`. -/
def tyl2 (a b : Ty) : TyList := .cons a (.cons b .nil)

/-- Modelled from the spec: the immutable configuration snapshot consumed
by the core (spec section 6).  The fields `maxTuple`, `maxFunc` come from
the pre-analyzer (`frontend/pre_analysis.py`, not under src/), `maxUnion`
models `config["maximum_union_length"]` and `noneSubAll` models
`config["none_subtype_of_all"]` from `frontend/config.py` (not under
src/). -/
structure Config where
  maxTuple : Nat
  maxFunc : Nat
  maxUnion : Nat
  noneSubAll : Bool

/-- Boolean test for the Z3 condition
`arg == union_2(union_2_arg_1(arg), union_2_arg_2(arg))`, i.e. "`arg` is
built from the `union_2` constructor" (the negated form appears in
`get_union_as_supertype_axioms`, z3_types.py line 332). -/
def isU2b : Ty → Bool
  | .unionK (.cons _ (.cons _ .nil)) => true
  | _ => false

/-- Propositional form of `isU2b`: the term is an arity-2 union. -/
def isUnion2 (x : Ty) : Prop := ∃ a b, x = Ty.unionK (tyl2 a b)

/-- Embedding of `Z3Types._not_union` (z3_types.py lines 339-344), negated:
the conjunction over `k ∈ [2, maximum_union_length]` of `is_union_k(expr)`
negations fails exactly when `expr` is a union of some arity in range. -/
def isUnionTm (cfg : Config) (x : Ty) : Prop :=
  ∃ args : TyList, x = Ty.unionK args ∧
    2 ≤ args.toList.length ∧ args.toList.length ≤ cfg.maxUnion

/-- Embedding of `Z3Types.get_union_as_supertype_axioms` (z3_types.py
lines 320-337) as the disjunction of the returned list: for some union
arity in `[2, maximum_union_length]`, `x` is a union of that arity, the
literal `c` is a subtype of some member, and no member is an arity-2 union
(the inner loop over `cur_len2` at lines 331-332 appends the same
`arg != union_2(...)` conjunct once per arity, never varying the arity, so
only the `union_2` shape is excluded). -/
def unionAsSupertypeDisj (cfg : Config) (c x : Ty) (S : Ty → Ty → Prop) : Prop :=
  ∃ args : TyList, 2 ≤ args.toList.length ∧ args.toList.length ≤ cfg.maxUnion ∧
    x = Ty.unionK args ∧ (∃ a ∈ args.toList, S c a) ∧ ∀ a ∈ args.toList, ¬ isUnion2 a

/-- Embedding of `Z3Types.get_union_as_subtype_axioms` (z3_types.py lines
365-377) as the disjunction of the returned list: for some union arity in
range, `x` is a union of that arity and every member is a subtype of the
literal `c`.  Note: unlike the supertype direction there is no non-union
condition on the members here. -/
def unionAsSubtypeDisj (cfg : Config) (c x : Ty) (S : Ty → Ty → Prop) : Prop :=
  ∃ args : TyList, 2 ≤ args.toList.length ∧ args.toList.length ≤ cfg.maxUnion ∧
    x = Ty.unionK args ∧ ∀ a ∈ args.toList, S a c

/-- Embedding of `Z3Types.get_union_as_union_subtype_axioms` (z3_types.py
lines 346-363), where `ys` are the quantified members of the union node:
`x` is a union of some arity in range, with all members non-union, and for
every member `y` of the node some member of `x` is a subtype of `y`. -/
def unionAsUnionSubtypeDisj (cfg : Config) (ys : List Ty) (x : Ty)
    (S : Ty → Ty → Prop) : Prop :=
  ∃ args : TyList, 2 ≤ args.toList.length ∧ args.toList.length ≤ cfg.maxUnion ∧
    x = Ty.unionK args ∧ (∀ a ∈ args.toList, ¬ isUnionTm cfg a) ∧
    ∀ y ∈ ys, ∃ a ∈ args.toList, S a y

/-- Element-wise subtyping of two argument lists (the `args_sub`
conjunctions built at z3_types.py lines 209-218 and 257-266). -/
def pairwiseSub (S : Ty → Ty → Prop) (ts ss : List Ty) : Prop :=
  ∀ p ∈ ts.zip ss, S p.1 p.2

/-- Axiom A generated for an ordinary class node named `nm`
(z3_types.py lines 196-247, non-tuple/func/union branch): for all `x`,
`subtype(class_nm, x)` holds iff `x` equals the literal of some member of
`all_parents` of the node (`ancLits`; `ClassNode.all_parents` includes the
node itself, so its own literal is among them), or the
union-as-supertype disjunction applies.  `ancLits` is the parameter
standing for the literals of the node's transitive ancestors. -/
def axmA_ord (cfg : Config) (nm : String) (ancLits : List Ty)
    (S : Ty → Ty → Prop) : Prop :=
  ∀ x : Ty, S (Ty.classC nm) x ↔
    ((∃ b ∈ ancLits, x = b) ∨ unionAsSupertypeDisj cfg (Ty.classC nm) x S)

/-- Axiom B generated for an ordinary class node named `nm`
(z3_types.py lines 249-296, non-tuple/func/union branch): for all `x`,
`subtype(x, class_nm)` holds iff `x = none` (only when the
`none_subtype_of_all` flag is set, line 250), or `x` equals the node's own
literal (the `sub is c` branch, lines 276-277), or `x` equals the literal
of some proper transitive descendant (`descLits`, from
`ClassNode.all_children`), or the union-as-subtype disjunction applies. -/
def axmB_ord (cfg : Config) (nm : String) (descLits : List Ty)
    (S : Ty → Ty → Prop) : Prop :=
  ∀ x : Ty, S x (Ty.classC nm) ↔
    ((cfg.noneSubAll ∧ x = Ty.none_) ∨ x = Ty.classC nm ∨
      (∃ d ∈ descLits, x = d) ∨ unionAsSubtypeDisj cfg (Ty.classC nm) x S)

/-- Axiom A generated for the `tuple_k` pseudo-class node (z3_types.py
lines 202-222 with the `tuple` branch at 212-214, plus the ancestor loop
and union disjuncts): for all `x` and all quantified argument tuples `ts`
of length `k`, `subtype(tuple_k(ts), x)` holds iff `x` is a `tuple_k` term
whose components are element-wise supertypes (covariance), or `x` equals
the node's own literal `tuple_k(ts)` (from `all_parents` containing the
node itself), or `x` equals a proper ancestor literal, or the
union-as-supertype disjunction applies. -/
def axmA_tuple (cfg : Config) (k : Nat) (ancLits : List Ty)
    (S : Ty → Ty → Prop) : Prop :=
  ∀ (x : Ty) (ts : TyList), ts.toList.length = k →
    (S (Ty.tupleK ts) x ↔
      ((∃ ss : TyList, ss.toList.length = k ∧ x = Ty.tupleK ss ∧
          pairwiseSub S ts.toList ss.toList) ∨
        x = Ty.tupleK ts ∨
        (∃ b ∈ ancLits, x = b) ∨
        unionAsSupertypeDisj cfg (Ty.tupleK ts) x S))

/-- Axiom B generated for the `tuple_k` pseudo-class node (z3_types.py
lines 249-296 with the `tuple` branch at 260-262): for all `x` and
quantified `ss` of length `k`, `subtype(x, tuple_k(ss))` holds iff
`x = none` (when the flag is set), or `x` is a `tuple_k` term with
element-wise covariant components, or `x` equals the node's own literal,
or `x` equals a proper descendant literal, or the union-as-subtype
disjunction applies. -/
def axmB_tuple (cfg : Config) (k : Nat) (descLits : List Ty)
    (S : Ty → Ty → Prop) : Prop :=
  ∀ (x : Ty) (ss : TyList), ss.toList.length = k →
    (S x (Ty.tupleK ss) ↔
      ((cfg.noneSubAll ∧ x = Ty.none_) ∨
        (∃ ts : TyList, ts.toList.length = k ∧ x = Ty.tupleK ts ∧
          pairwiseSub S ts.toList ss.toList) ∨
        x = Ty.tupleK ss ∨
        (∃ d ∈ descLits, x = d) ∨
        unionAsSubtypeDisj cfg (Ty.tupleK ss) x S))

/-- Axiom A generated for the `func_k` pseudo-class node (z3_types.py
lines 202-222 with the function branch at 215-218): for all `x` and
quantified defaults-count `n`, arguments `as` of length `k` and return
type `r`, `subtype(func_k(n, as, r), x)` holds iff `x` is a `func_k` term
with contravariant arguments (`subtype` of `x`'s argument to the node's
argument at each position) and covariant return, with no constraint
between the two defaults counts, or `x` equals the node's own literal
`func_k(n, as, r)`, or `x` equals a proper ancestor literal, or the
union-as-supertype disjunction applies. -/
def axmA_func (cfg : Config) (k : Nat) (ancLits : List Ty)
    (S : Ty → Ty → Prop) : Prop :=
  ∀ (x : Ty) (n : Int) (as : TyList) (r : Ty), as.toList.length = k →
    (S (Ty.funcK n as r) x ↔
      ((∃ (m : Int) (bs : TyList) (s : Ty), bs.toList.length = k ∧
          x = Ty.funcK m bs s ∧ pairwiseSub S bs.toList as.toList ∧ S r s) ∨
        x = Ty.funcK n as r ∨
        (∃ b ∈ ancLits, x = b) ∨
        unionAsSupertypeDisj cfg (Ty.funcK n as r) x S))

/-- Axiom B generated for the `func_k` pseudo-class node (z3_types.py
lines 249-296 with the function branch at 263-266), mirror image of
`axmA_func`: `subtype(x, func_k(m, bs, s))` holds iff `x = none` (when the
flag is set), or `x` is a `func_k` term with contravariant arguments and
covariant return, or `x` equals the node's own literal, or a proper
descendant literal, or the union-as-subtype disjunction applies. -/
def axmB_func (cfg : Config) (k : Nat) (descLits : List Ty)
    (S : Ty → Ty → Prop) : Prop :=
  ∀ (x : Ty) (m : Int) (bs : TyList) (s : Ty), bs.toList.length = k →
    (S x (Ty.funcK m bs s) ↔
      ((cfg.noneSubAll ∧ x = Ty.none_) ∨
        (∃ (n : Int) (as : TyList) (r : Ty), as.toList.length = k ∧
          x = Ty.funcK n as r ∧ pairwiseSub S bs.toList as.toList ∧ S r s) ∨
        x = Ty.funcK m bs s ∨
        (∃ d ∈ descLits, x = d) ∨
        unionAsSubtypeDisj cfg (Ty.funcK m bs s) x S))

/-- Axiom B generated for the `union_k` pseudo-class node (z3_types.py
lines 249-296 with the union branches at 269-270, 273-275 where the
descendant loop breaks immediately, 281-282 and the final union form at
288-290): for all `x` and quantified members `ys` of length `k`,
`subtype(x, union_k(ys))` holds iff all members of `ys` are non-union and
(`x = none` when the flag is set, or `x` is non-union and a subtype of
some member, or the union-as-union-subtype disjunction applies). -/
def axmB_union (cfg : Config) (k : Nat) (S : Ty → Ty → Prop) : Prop :=
  ∀ (x : Ty) (ys : TyList), ys.toList.length = k →
    (S x (Ty.unionK ys) ↔
      ((∀ y ∈ ys.toList, ¬ isUnionTm cfg y) ∧
        ((cfg.noneSubAll ∧ x = Ty.none_) ∨
          (¬ isUnionTm cfg x ∧ ∃ y ∈ ys.toList, S x y) ∨
          unionAsUnionSubtypeDisj cfg ys.toList x S)))

/-- Names of class-tree entries.  Keys of `all_classes` are either plain
class-name strings or, for the tuple/function/union pseudo-classes, Python
tuples whose head is the constructor name and whose remaining entries are
the accessor names (tested with `isinstance(c.name, tuple)` and
`startswith` at z3_types.py lines 202, 223, 251, 269). -/
inductive NodeName where
  | str (s : String)
  | tup (head : String) (accs : List String)
  deriving DecidableEq

/-- Name of the root node seeded by `create_class_tree`. -/
def objName : String := "object"

/-- Name of the distinguished none pseudo-class (z3_types.py line 200). -/
def noneName : String := "none"

/-- The mutable object graph of `ClassNode`s, flattened: node `i` has name
`names[i]`, parent ids `parentsL[i]` and child ids `childrenL[i]`.
Appending to a node's `parents`/`children` lists in Python corresponds to
updating the entry at its id. -/
structure Graph where
  names : List NodeName
  parentsL : List (List Nat)
  childrenL : List (List Nat)
  deriving DecidableEq

/-- The initial graph holding only `ClassNode('object', [], type_sort)`
(z3_types.py line 163). -/
def Graph.root : Graph :=
  { names := [NodeName.str objName], parentsL := [[]], childrenL := [[]] }

/-- First result of an option-valued function over a list (the early
`return` of a recursive search). -/
def firstSome : List Nat → (Nat → Option Nat) → Option Nat
  | [], _ => Option.none
  | c :: cs, f =>
    match f c with
    | Option.some r => Option.some r
    | Option.none => firstSome cs f

/-- Modelled from the spec: `ClassNode.find` (in `frontend/class_node.py`,
which is not under src/) — depth-first search through the `children`
edges of the subtree rooted at a node for the first node with the given
name, returning nothing when the name is unreachable.  The spec describes
the node set as a DAG rooted at the universal base whose traversals follow
these `children` back-references (spec sections 3 and 4.2).  Children ids
are strictly larger than their parents' ids in every graph the worklist
builds, so a fuel of `names.length + 1` never runs out on such graphs. -/
def findAux (g : Graph) : Nat → Nat → NodeName → Option Nat
  | 0, _, _ => Option.none
  | fuel + 1, id, nm =>
    match g.names.get? id with
    | Option.none => Option.none
    | Option.some nm' =>
      if nm' = nm then Option.some id
      else firstSome (g.childrenL.getD id []) (fun c => findAux g fuel c nm)

/-- Search for a node by name starting from the root (`graph.find(base)`
at z3_types.py line 182). -/
def Graph.find (g : Graph) (nm : NodeName) : Option Nat :=
  findAux g (g.names.length + 1) 0 nm

/-- Modelled from the spec: `ClassNode.all_children` — the transitive
descendant traversal (spec sections 3 and 4.2), listing the node itself
followed by all descendants in depth-first preorder.  A node reachable
through several paths is listed once per path, as in the reference object
graph. -/
def allChildrenAux (g : Graph) : Nat → Nat → List Nat
  | 0, _ => []
  | fuel + 1, id => id :: (g.childrenL.getD id []).flatMap (allChildrenAux g fuel)

/-- Ids listed by `tree.all_children()` for the whole tree (root id 0),
the iteration order of `create_subtype_axioms` (z3_types.py line 195). -/
def Graph.allChildrenIds (g : Graph) : List Nat :=
  allChildrenAux g (g.names.length + 1) 0

/-- Modelled from the spec: `ClassNode.all_parents` — the transitive
ancestor traversal (spec sections 3 and 4.2), listing the node itself
followed by all ancestors.  Its inclusion of the node itself is forced by
the generated axioms: Axiom B explicitly adds the node's own literal via
the `sub is c` branch (z3_types.py lines 276-277), and the spec lists
`x = c` (reflexivity) among Axiom A's disjuncts (spec section 4.3), which
Axiom A only emits through the `all_parents` loop (lines 229-232). -/
def allParentsAux (g : Graph) : Nat → Nat → List Nat
  | 0, _ => []
  | fuel + 1, id => id :: (g.parentsL.getD id []).flatMap (allParentsAux g fuel)

/-- Ids listed by `node.all_parents()` for the node with the given id. -/
def Graph.allParentsIds (g : Graph) (id : Nat) : List Nat :=
  allParentsAux g (g.names.length + 1) id

/-- Name of a node id, defaulting to the empty string name for ids outside
the graph (never hit on graphs the worklist builds). -/
def Graph.nameAt (g : Graph) (id : Nat) : NodeName :=
  g.names.getD id (NodeName.str ("" : String))

/-- Modelled from the spec: `ClassNode.get_literal` restricted to
ordinary (string-named) nodes — the node's class constructor, with the
root mapping to the `object` constructor (spec section 3: a node's derived
"literal" term is its class constructor; parametric pseudo-class literals
are instead rendered inside the per-kind axiom embeddings above). -/
def litOfName : NodeName → Option Ty
  | NodeName.str s => if s = objName then Option.some Ty.object else Option.some (Ty.classC s)
  | NodeName.tup _ _ => Option.none

/-- Literals of `all_parents` of a node, as used by the ancestor loop of
Axiom A (z3_types.py lines 229-232), for graphs of ordinary nodes. -/
def Graph.ancLitsAt (g : Graph) (id : Nat) : List Ty :=
  (g.allParentsIds id).filterMap (fun i => litOfName (g.nameAt i))

/-- State of the worklist loop of `Z3Types.create_class_tree`
(z3_types.py lines 157-186): the growing `to_cover` list, the scan index
`i`, the `covered` set (as a list) and the graph built so far. -/
structure CTState where
  toCover : List NodeName
  i : Nat
  covered : List NodeName
  g : Graph
  deriving DecidableEq

/-- Outcome of running the worklist for some number of steps: still
looping, finished with a final state, or crashed.  The crash models the
Python `AttributeError` raised at line 184 (`base_node.children.append`)
when `graph.find(base)` at line 182 returned `None`. -/
inductive CTRes where
  | running (s : CTState)
  | done (s : CTState)
  | crash
  deriving DecidableEq

/-- Empty string used as an out-of-range default; the index guard of the
loop keeps it from ever being read. -/
def emptyS2 : String := ""

/-- Lookup `all_classes[current]` (z3_types.py line 170); `current` is
always drawn from the keys, so the default is never hit. -/
def lookupBases (all : List (NodeName × List NodeName)) (nm : NodeName) :
    List NodeName :=
  match all.lookup nm with
  | Option.some bs => bs
  | Option.none => []

/-- Attach the freshly created node to the already-found base node: append
to `current_node.parents` and `base_node.children` (z3_types.py lines
183-184). -/
def addEdge (g : Graph) (newId baseId : Nat) : Graph :=
  { g with
    parentsL := g.parentsL.set newId (g.parentsL.getD newId [] ++ [baseId]),
    childrenL := g.childrenL.set baseId (g.childrenL.getD baseId [] ++ [newId]) }

/-- The per-base loop of node materialization (z3_types.py lines 181-184):
find each base from the root and link it, crashing when `find` fails. -/
def attachFold : List NodeName → Graph → Nat → Option Graph
  | [], g, _ => Option.some g
  | b :: bs, g, newId =>
    match g.find b with
    | Option.none => Option.none
    | Option.some baseId => attachFold bs (addEdge g newId baseId) newId

/-- Materialize `ClassNode(current, [], type_sort)` (z3_types.py line 180)
and run the base-linking loop. -/
def attachNode (g : Graph) (nm : NodeName) (bases : List NodeName) :
    Option Graph :=
  let g1 : Graph :=
    { names := g.names ++ [nm], parentsL := g.parentsL ++ [[]],
      childrenL := g.childrenL ++ [[]] }
  attachFold bases g1 g.names.length

/-- One iteration of the `while i < len(to_cover)` loop of
`create_class_tree` (z3_types.py lines 167-185): read `to_cover[i]`,
advance `i`, requeue the class when some base is uncovered, otherwise
materialize and link its node and mark it covered. -/
def ctStep (all : List (NodeName × List NodeName)) (s : CTState) : CTRes :=
  if s.i < s.toCover.length then
    let current := s.toCover.getD s.i (NodeName.str emptyS2)
    let bases := lookupBases all current
    if bases.any (fun b => !(s.covered.contains b)) then
      CTRes.running { s with toCover := s.toCover ++ [current], i := s.i + 1 }
    else
      match attachNode s.g current bases with
      | Option.some g' =>
        CTRes.running { toCover := s.toCover, i := s.i + 1,
                        covered := s.covered ++ [current], g := g' }
      | Option.none => CTRes.crash
  else CTRes.done s

/-- Initial loop state (z3_types.py lines 163-166): `to_cover` holds the
keys of `all_classes`, `covered` starts as `{'object'}`, the graph is the
lone root. -/
def ctInit (all : List (NodeName × List NodeName)) : CTState :=
  { toCover := all.map Prod.fst, i := 0, covered := [NodeName.str objName],
    g := Graph.root }

/-- Iterate the loop body for at most `fuel` steps. -/
def ctIter (all : List (NodeName × List NodeName)) : Nat → CTRes → CTRes
  | 0, r => r
  | fuel + 1, r =>
    match r with
    | CTRes.running s => ctIter all fuel (ctStep all s)
    | r' => r'

/-- Embedding of `Z3Types.create_class_tree` (z3_types.py lines 157-186),
step-indexed: the Python loop has no bound, so termination shows up here
as reaching `done`/`crash` for some fuel, and divergence as remaining
`running` for every fuel. -/
def create_class_tree (all : List (NodeName × List NodeName)) (fuel : Nat) :
    CTRes :=
  ctIter all fuel (CTRes.running (ctInit all))

/-- The guard at z3_types.py line 200 deciding whether Axiom A is emitted
for a node: `c.name != 'none' or c.name == 'none' and not
config["none_subtype_of_all"]`. -/
def emitAGuard (nm : NodeName) (flag : Bool) : Bool :=
  nm ≠ NodeName.str noneName || (nm = NodeName.str noneName && !flag)

/-- Which of the two per-node axioms a generated entry is. -/
inductive ABSide where
  | A
  | B
  deriving DecidableEq

/-- Does the needle match at the head of the haystack. -/
def leadMatch : List Char → List Char → Bool
  | [], _ => true
  | _ :: _, [] => false
  | a :: as, b :: bs => a == b && leadMatch as bs

/-- Does the needle occur as a contiguous sublist of the haystack. -/
def hasSub : List Char → List Char → Bool
  | needle, [] => needle.isEmpty
  | needle, c :: rest => leadMatch needle (c :: rest) || hasSub needle rest

/-- Python's substring test `pat in s` (used on the rendered axiom at
z3_types.py lines 245 and 294). -/
def containsSub (s pat : String) : Bool := hasSub pat.data s.data

/-- Debug pattern checked before the first `print` (z3_types.py line 245). -/
def patA : String := "subtype(union_2(y0, y1), x)"

/-- Debug pattern checked before the second `print` (z3_types.py line 294). -/
def patB : String := "subtype(x, union_2(y0, y1))"

/-- Per-node part of the generator: the tags of the axioms emitted for a
node (Axiom A under the line-200 guard, then Axiom B), and the lines
printed to stdout by the debug `print` calls at z3_types.py lines 245-246
and 294-295.  `render` stands for Z3's `str(axiom)` on the node's two
axioms, which lives in the Z3 library, not in this repository. -/
def nodeTags (cfg : Config) (render : NodeName → ABSide → String)
    (nm : NodeName) : List (NodeName × ABSide) × List String :=
  let aTags : List (NodeName × ABSide) :=
    if emitAGuard nm cfg.noneSubAll then [(nm, ABSide.A)] else []
  let aPrint : List String :=
    if emitAGuard nm cfg.noneSubAll && containsSub (render nm ABSide.A) patA then
      [render nm ABSide.A]
    else []
  let bPrint : List String :=
    if containsSub (render nm ABSide.B) patB then [render nm ABSide.B] else []
  (aTags ++ [(nm, ABSide.B)], aPrint ++ bPrint)

/-- Structural model of `Z3Types.create_subtype_axioms` (z3_types.py lines
188-298): build the class tree, then walk `tree.all_children()` emitting
per node Axiom A (when the line-200 guard allows) and Axiom B, collecting
the debug output of the `print` calls.  The logical content of the emitted
axioms is modelled separately by `axmA_ord` .. `axmB_union` above; this
definition captures which axioms are emitted, in which order, and what is
written to stdout. -/
def createSubtypeTags (cfg : Config) (render : NodeName → ABSide → String)
    (all : List (NodeName × List NodeName)) (fuel : Nat) :
    Option (List (NodeName × ABSide) × List String) :=
  match create_class_tree all fuel with
  | CTRes.done s =>
    let perNode := (s.g.allChildrenIds).map (fun id => nodeTags cfg render (s.g.nameAt id))
    Option.some (perNode.flatMap Prod.fst, perNode.flatMap Prod.snd)
  | _ => Option.none

/-- Printed output of a generator run (empty when the run did not finish). -/
def printedOf : Option (List (NodeName × ABSide) × List String) → List String
  | Option.some p => p.2
  | Option.none => []

/-- Axiom tags of a generator run. -/
def tagsOf : Option (List (NodeName × ABSide) × List String) →
    List (NodeName × ABSide)
  | Option.some p => p.1
  | Option.none => []

/-- Fixed prefix of every attribute-constant name (z3_types.py line 443). -/
def clsPre : String := "class_"

/-- Fixed separator of every attribute-constant name (line 443). -/
def attrMid : String := "_attr_"

/-- Name of the Z3 constant allocated for a (class, attribute) pair:
`"class_{}_attr_{}".format(cls, attr)` (z3_types.py line 443).  In Z3, two
constants with the same name and sort are the same constant, so a constant
is modelled by its name. -/
def attrConstName (cls attr : String) : String :=
  clsPre ++ cls ++ attrMid ++ attr

/-- Keys of an `OrderedDict` filled by repeated assignment: first
occurrence fixes the position, later duplicates collapse. -/
def dedupKeepFirst (l : List String) : List String :=
  l.foldl (fun acc a => if acc.contains a then acc else acc ++ [a]) []

/-- Embedding of `create_classes_attributes` (z3_types.py lines 438-444):
for each class, an `OrderedDict` mapping each attribute name, in
declaration order, to the constant named by `attrConstName`. -/
def create_classes_attributes (m : List (String × List String)) :
    List (String × List (String × String)) :=
  m.map (fun p => (p.1, (dedupKeepFirst p.2).map (fun attr => (attr, attrConstName p.1 attr))))

/-- All constants allocated in an attribute table. -/
def constantsOf (t : List (String × List (String × String))) : List String :=
  t.flatMap (fun p => p.2.map Prod.snd)

/-- The constant stored in a table for a (class, attribute) pair. -/
def lookupAttrConst (t : List (String × List (String × String)))
    (cls attr : String) : Option String :=
  match t.lookup cls with
  | Option.some attrs => attrs.lookup attr
  | Option.none => Option.none

/-- Sample configuration: tuple/function arities up to 2, unions of arity
exactly 2, `none_subtype_of_all` false. -/
def cfg0 : Config := { maxTuple := 2, maxFunc := 2, maxUnion := 2, noneSubAll := false }

/-- Sample configuration with `none_subtype_of_all` set. -/
def cfgT : Config := { maxTuple := 2, maxFunc := 2, maxUnion := 2, noneSubAll := true }

/-- Sample user-class name. -/
def nameA : String := "A"

/-- Second sample user-class name. -/
def nameB : String := "B"

/-- Sample attribute names. -/
def attrX : String := "x"

/-- Second sample attribute name. -/
def attrY : String := "y"

/-- Literal of the sample class `A`. -/
def litA : Ty := Ty.classC nameA

/-- Literals of `all_parents` for the node of class `A` declared with base
`object`: the node itself, then the root. -/
def anc0 : List Ty := [litA, Ty.object]

/-- The empty string. -/
def emptyS : String := ""

/-- Class-tree input `{A: [B]}` with `B` never declared. -/
def exC1 : List (NodeName × List NodeName) :=
  [(NodeName.str nameA, [NodeName.str nameB])]

/-- Worklist state reached after `n` iterations on `exC1`: the scan index
has advanced to `n` and `A` has been requeued `n` times. -/
def stC1 (n : Nat) : CTState :=
  { toCover := List.replicate (n + 1) (NodeName.str nameA), i := n,
    covered := [NodeName.str objName], g := Graph.root }

/-- Class-tree input `{A: []}`: a class declaring no bases at all. -/
def exC10a : List (NodeName × List NodeName) := [(NodeName.str nameA, [])]

/-- Class-tree input `{A: [], B: [A]}`: a class whose base is a declared
but base-less (hence unreachable) class. -/
def exC10b : List (NodeName × List NodeName) :=
  [(NodeName.str nameA, []), (NodeName.str nameB, [NodeName.str nameA])]

/-- Class-tree input `{A: [object]}`. -/
def exC5 : List (NodeName × List NodeName) :=
  [(NodeName.str nameA, [NodeName.str objName])]

/-- Head of the `union_2` pseudo-class name tuple. -/
def u2Head : String := "union_2"

/-- First accessor name of `union_2`. -/
def u2Acc1 : String := "union_2_arg_1"

/-- Second accessor name of `union_2`. -/
def u2Acc2 : String := "union_2_arg_2"

/-- Name tuple of the `union_2` pseudo-class node. -/
def u2Name : NodeName := NodeName.tup u2Head [u2Acc1, u2Acc2]

/-- Class-tree input containing the `union_2` pseudo-class under the root. -/
def exC9 : List (NodeName × List NodeName) := [(u2Name, [NodeName.str objName])]

/-- Modelled from the spec: a rendering of the generated axioms as Z3's
`str` would produce it, for the run on `exC9`.  Z3's printing lives
outside this repository; the repository's own debug guards (z3_types.py
lines 245 and 294) hard-code that the `union_2` node's two axioms render
with the substrings `subtype(union_2(y0, y1), x)` and
`subtype(x, union_2(y0, y1))` respectively, which this rendering
reproduces. -/
def exRender : NodeName → ABSide → String := fun nm side =>
  if nm = u2Name then
    match side with
    | ABSide.A => patA
    | ABSide.B => patB
  else emptyS

/-- Ancestor literals of node 1 (class `A`) in the tree built from `exC5`. -/
def ancRunC5 : List Ty :=
  match create_class_tree exC5 10 with
  | CTRes.done s => s.g.ancLitsAt 1
  | _ => []

/-- Instance-attribute input used for the attribute-table claims. -/
def exInstAttrs : List (String × List String) := [(nameA, [attrX, attrY])]

/-- Class-attribute input used for the attribute-table claims; it shares
the pair `(A, x)` with the instance-attribute input. -/
def exClsAttrs : List (String × List String) := [(nameA, [attrX])]

/-- Check that every member of a `TyList` is not an arity-2 union (the
conjunction of negated `union_2` shape tests). -/
def notU2All : TyList → Bool
  | .nil => true
  | .cons a as => !(isU2b a) && notU2All as

mutual

/-- Concrete interpretation of `subtype(class_A, ·)` matching Axiom A of
class `A` under `cfg0` with ancestors `anc0`: true on the two ancestor
literals and propagated through arity-2 unions with non-`union_2`
members. -/
def fA : Ty → Bool
  | .classC n => n == nameA
  | .object => true
  | .unionK args => (args.len == 2) && fAAny args && notU2All args
  | _ => false

/-- Does `fA` hold of some member of the list. -/
def fAAny : TyList → Bool
  | .nil => false
  | .cons a as => fA a || fAAny as

end

mutual

/-- Concrete interpretation of `subtype(·, class_A)` matching Axiom B of
class `A` under `cfg0` with no proper descendants: true on the class
literal itself and propagated through arity-2 unions memberwise. -/
def gB : Ty → Bool
  | .classC n => n == nameA
  | .unionK args => (args.len == 2) && gBAll args
  | _ => false

/-- Does `gB` hold of all members of the list. -/
def gBAll : TyList → Bool
  | .nil => true
  | .cons a as => gB a && gBAll as

end

/-- Concrete subtype interpretation satisfying both axioms of the ordinary
class node `A` under `cfg0` (and nothing else): `S0 (class_A) b = fA b`
and `S0 a (class_A) = gB a`. -/
def S0 : Ty → Ty → Bool
  | .classC n, b => (n == nameA) && fA b
  | a, .classC m => (m == nameA) && gB a
  | _, _ => false

/-- Propositional form of `S0`. -/
def S0P : Ty → Ty → Prop := fun a b => S0 a b = true

mutual

/-- Concrete interpretation of `subtype(·, class_A)` matching Axiom B of
class `A` under `cfgT` (flag set): additionally true on `none`. -/
def gBt : Ty → Bool
  | .none_ => true
  | .classC n => n == nameA
  | .unionK args => (args.len == 2) && gBtAll args
  | _ => false

/-- Does `gBt` hold of all members of the list. -/
def gBtAll : TyList → Bool
  | .nil => true
  | .cons a as => gBt a && gBtAll as

end

mutual

/-- Concrete subtype interpretation satisfying Axiom B of the class node
`A` and Axiom B of the `union_2` node under `cfgT` (the flag-set
configuration), false at every point those axioms do not constrain. -/
def W7 : Ty → Ty → Bool
  | a, .classC m => (m == nameA) && gBt a
  | a, .unionK ys =>
    (ys.len == 2) && notU2All ys &&
      (decide (a = Ty.none_) ||
        (!(isU2b a) && w7any a ys) ||
        w7third a ys)
  | _, _ => false
termination_by a b => sizeOf a + sizeOf b
decreasing_by all_goals simp_wf <;> omega

/-- Does `W7 a` hold of some member of the list. -/
def w7any : Ty → TyList → Bool
  | _, .nil => false
  | a, .cons y ys => W7 a y || w7any a ys
termination_by a ys => sizeOf a + sizeOf ys
decreasing_by all_goals simp_wf <;> omega

/-- The union-as-union-subtype disjunct of Axiom B of the `union_2` node,
specialized to `cfgT` (only arity 2 is in range). -/
def w7third : Ty → TyList → Bool
  | .unionK args, ys => (args.len == 2) && notU2All args && w7allEx args ys
  | _, _ => false
termination_by a ys => sizeOf a + sizeOf ys
decreasing_by all_goals simp_wf <;> omega

/-- For every member `y` of the second list, some member of the first list
is a `W7`-subtype of `y`. -/
def w7allEx : TyList → TyList → Bool
  | _, .nil => true
  | args, .cons y ys => w7ex args y && w7allEx args ys
termination_by args ys => sizeOf args + sizeOf ys
decreasing_by all_goals simp_wf <;> omega

/-- Some member of the list is a `W7`-subtype of `y`. -/
def w7ex : TyList → Ty → Bool
  | .nil, _ => false
  | .cons a as, y => W7 a y || w7ex as y
termination_by as y => sizeOf as + sizeOf y
decreasing_by all_goals simp_wf <;> omega

end

/-- Propositional form of `W7`. -/
def W7P : Ty → Ty → Prop := fun a b => W7 a b = true

mutual

/-- Concrete subtype interpretation satisfying both axioms of the
`tuple_1` pseudo-class node under `cfg0` with proper ancestor literal
`object` and no proper descendants. -/
def W6 : Ty → Ty → Bool
  | .tupleK (.cons t .nil), .tupleK (.cons s .nil) => W6 t s || decide (t = s)
  | .tupleK (.cons _ .nil), .object => true
  | .tupleK (.cons t .nil), .unionK args =>
    (args.len == 2) && w6any (Ty.tupleK (.cons t .nil)) args && notU2All args
  | .unionK args, .tupleK (.cons s .nil) =>
    (args.len == 2) && w6all args (Ty.tupleK (.cons s .nil))
  | _, _ => false
termination_by a b => sizeOf a + sizeOf b
decreasing_by all_goals simp_wf <;> omega

/-- Does `W6 a` hold of some member of the list. -/
def w6any : Ty → TyList → Bool
  | _, .nil => false
  | a, .cons y ys => W6 a y || w6any a ys
termination_by a ys => sizeOf a + sizeOf ys
decreasing_by all_goals simp_wf <;> omega

/-- Does `W6 · c` hold of all members of the list. -/
def w6all : TyList → Ty → Bool
  | .nil, _ => true
  | .cons a as, c => W6 a c && w6all as c
termination_by as c => sizeOf as + sizeOf c
decreasing_by all_goals simp_wf <;> omega

end

/-- Propositional form of `W6`. -/
def W6P : Ty → Ty → Prop := fun a b => W6 a b = true

mutual

/-- Concrete subtype interpretation satisfying both axioms of the `func_1`
pseudo-class node under `cfg0` with no proper ancestors or descendants. -/
def W3 : Ty → Ty → Bool
  | .funcK n (.cons a1 .nil) r, .funcK m (.cons b1 .nil) s =>
    (W3 b1 a1 && W3 r s) || (decide (n = m) && decide (a1 = b1) && decide (r = s))
  | .funcK n (.cons a1 .nil) r, .unionK args =>
    (args.len == 2) && w3any (Ty.funcK n (.cons a1 .nil) r) args && notU2All args
  | .unionK args, .funcK m (.cons b1 .nil) s =>
    (args.len == 2) && w3all args (Ty.funcK m (.cons b1 .nil) s)
  | _, _ => false
termination_by a b => sizeOf a + sizeOf b
decreasing_by all_goals simp_wf <;> omega

/-- Does `W3 a` hold of some member of the list. -/
def w3any : Ty → TyList → Bool
  | _, .nil => false
  | a, .cons y ys => W3 a y || w3any a ys
termination_by a ys => sizeOf a + sizeOf ys
decreasing_by all_goals simp_wf <;> omega

/-- Does `W3 · c` hold of all members of the list. -/
def w3all : TyList → Ty → Bool
  | .nil, _ => true
  | .cons a as, c => W3 a c && w3all as c
termination_by as c => sizeOf as + sizeOf c
decreasing_by all_goals simp_wf <;> omega

end

/-- Propositional form of `W3`. -/
def W3P : Ty → Ty → Prop := fun a b => W3 a b = true

/-- Sample function type `int -> int` with no default arguments. -/
def f0 : Ty := Ty.funcK 0 (tyl1 Ty.int) Ty.int

/-- A union with a nested arity-2 union member. -/
def nestedU : Ty := Ty.unionK (tyl2 (Ty.unionK (tyl2 litA litA)) litA)

/-- Claim C2 as stated, at the ordinary class node `A` under `cfg0`: for
any interpretation satisfying the node's two axioms, a union is a
supertype of `A` exactly when some member is, and a subtype of `A` exactly
when all members are. -/
def claimC2 : Prop :=
  ∀ S : Ty → Ty → Prop, axmA_ord cfg0 nameA anc0 S → axmB_ord cfg0 nameA [] S →
    ∀ us : TyList, 2 ≤ us.toList.length → us.toList.length ≤ cfg0.maxUnion →
      ((S litA (Ty.unionK us) ↔ ∃ x ∈ us.toList, S litA x) ∧
        (S (Ty.unionK us) litA ↔ ∀ x ∈ us.toList, S x litA))

/-- Claim C3 as stated, at the `func_1` node under `cfg0`: for any
interpretation satisfying the node's two axioms, `func_1` terms are
related exactly by contravariant-argument/covariant-return variance. -/
def claimC3 : Prop :=
  ∀ S : Ty → Ty → Prop, axmA_func cfg0 1 [] S → axmB_func cfg0 1 [] S →
    ∀ (n : Int) (as : TyList) (r : Ty) (m : Int) (bs : TyList) (s : Ty),
      as.toList.length = 1 → bs.toList.length = 1 →
      (S (Ty.funcK n as r) (Ty.funcK m bs s) ↔
        (pairwiseSub S bs.toList as.toList ∧ S r s))

/-- Claim C4 as stated: Axiom A is skipped exactly when the node is the
none pseudo-class and the `none_subtype_of_all` flag is false. -/
def claimC4 : Prop :=
  ∀ (flag : Bool) (nm : NodeName),
    emitAGuard nm flag = false ↔ (nm = NodeName.str noneName ∧ flag = false)

/-- Claim C7 (second part) as stated: with the flag set, any
interpretation satisfying the generated axioms (here those of class `A`
and of the `union_2` node) relates `none` below every type. -/
def claimC7 : Prop :=
  ∀ S : Ty → Ty → Prop, axmB_ord cfgT nameA [] S → axmB_union cfgT 2 S →
    ∀ x : Ty, S Ty.none_ x

/-- Claim C8 (independence part) as stated: no constant allocated in the
instance-attribute table is also allocated in the class-attribute table,
for the sample inputs sharing the pair `(A, x)`. -/
def claimC8 : Prop :=
  ∀ c ∈ constantsOf (create_classes_attributes exInstAttrs),
    c ∉ constantsOf (create_classes_attributes exClsAttrs)

/-- Claim C10 (final part) as stated: a class whose base is a declared
base-less class can still be materialized, the base being located through
`graph.find`. -/
def claimC10serves : Prop :=
  ∃ s, create_class_tree exC10b 20 = CTRes.done s

/-- The graph produced by the run on `{A: []}`: the root plus the orphan
node for `A`, with no edges at all. -/
def gOrphan : Graph :=
  { names := [NodeName.str objName, NodeName.str nameA],
    parentsL := [[], []], childrenL := [[], []] }

/-- The final worklist state of the run on `{A: []}`. -/
def stOrphan : CTState :=
  { toCover := [NodeName.str nameA], i := 1,
    covered := [NodeName.str objName, NodeName.str nameA], g := gOrphan }

theorem TyList.len_eq : ∀ xs : TyList, xs.len = xs.toList.length
  | .nil => rfl
  | .cons _ as => by simp [TyList.len, TyList.toList, TyList.len_eq as]

theorem toList_len1 : ∀ xs : TyList, xs.toList.length = 1 → ∃ a, xs = TyList.cons a TyList.nil
  | .nil, h => by simp [TyList.toList] at h
  | .cons a .nil, _ => ⟨a, rfl⟩
  | .cons _ (.cons _ _), h => by simp [TyList.toList] at h

theorem isU2b_iff (x : Ty) : isU2b x = true ↔ isUnion2 x := by
  cases x with
  | unionK args =>
    cases args with
    | nil => simp [isU2b, isUnion2, tyl2]
    | cons a as =>
      cases as with
      | nil => simp [isU2b, isUnion2, tyl2]
      | cons b bs =>
        cases bs with
        | nil => simp [isU2b, isUnion2, tyl2]
        | cons c cs => simp [isU2b, isUnion2, tyl2]
  | object => simp [isU2b, isUnion2]
  | type_ i => simp [isU2b, isUnion2]
  | none_ => simp [isU2b, isUnion2]
  | complex => simp [isU2b, isUnion2]
  | float => simp [isU2b, isUnion2]
  | int => simp [isU2b, isUnion2]
  | bool => simp [isU2b, isUnion2]
  | sequence => simp [isU2b, isUnion2]
  | str_ => simp [isU2b, isUnion2]
  | bytes_ => simp [isU2b, isUnion2]
  | tuple_ => simp [isU2b, isUnion2]
  | tupleK args => simp [isU2b, isUnion2]
  | listT t => simp [isU2b, isUnion2]
  | setT t => simp [isU2b, isUnion2]
  | dictT k v => simp [isU2b, isUnion2]
  | funcK d args r => simp [isU2b, isUnion2]
  | classC n => simp [isU2b, isUnion2]

theorem isUnionTm_two (cfg : Config) (hU : cfg.maxUnion = 2) (x : Ty) :
    isUnionTm cfg x ↔ isUnion2 x := by
  constructor
  · rintro ⟨args, rfl, h2, hle⟩
    rw [hU] at hle
    have hlen : args.toList.length = 2 := le_antisymm hle h2
    rcases args with _ | ⟨a, _ | ⟨b, _ | ⟨c, cs⟩⟩⟩ <;>
      simp [TyList.toList] at hlen <;> exact ⟨a, b, rfl⟩
  · rintro ⟨a, b, rfl⟩
    exact ⟨tyl2 a b, rfl, by simp [tyl2, TyList.toList], by simp [tyl2, TyList.toList, hU]⟩

theorem notU2All_iff : ∀ xs : TyList,
    notU2All xs = true ↔ ∀ a ∈ xs.toList, ¬ isUnion2 a
  | .nil => by simp [notU2All, TyList.toList]
  | .cons a as => by
    simp [notU2All, TyList.toList, Bool.and_eq_true, notU2All_iff as,
      Bool.eq_false_iff, Ne, isU2b_iff a]

theorem fAAny_iff : ∀ xs : TyList, fAAny xs = true ↔ ∃ a ∈ xs.toList, fA a = true
  | .nil => by simp [fAAny, TyList.toList]
  | .cons a as => by
    simp [fAAny, TyList.toList, Bool.or_eq_true, fAAny_iff as]

theorem gBAll_iff : ∀ xs : TyList, gBAll xs = true ↔ ∀ a ∈ xs.toList, gB a = true
  | .nil => by simp [gBAll, TyList.toList]
  | .cons a as => by
    simp [gBAll, TyList.toList, Bool.and_eq_true, gBAll_iff as]

theorem gBtAll_iff : ∀ xs : TyList, gBtAll xs = true ↔ ∀ a ∈ xs.toList, gBt a = true
  | .nil => by simp [gBtAll, TyList.toList]
  | .cons a as => by
    simp [gBtAll, TyList.toList, Bool.and_eq_true, gBtAll_iff as]

theorem S0_left (b : Ty) : S0 (Ty.classC nameA) b = fA b := by
  simp [S0]

theorem S0_right : ∀ a : Ty, S0 a (Ty.classC nameA) = gB a
  | .classC n => by
    by_cases h : n = nameA
    · subst h; simp [S0, gB, fA]
    · simp [S0, gB, h]
  | .object => by simp [S0, gB]
  | .type_ i => by simp [S0, gB]
  | .none_ => by simp [S0, gB]
  | .complex => by simp [S0, gB]
  | .float => by simp [S0, gB]
  | .int => by simp [S0, gB]
  | .bool => by simp [S0, gB]
  | .sequence => by simp [S0, gB]
  | .str_ => by simp [S0, gB]
  | .bytes_ => by simp [S0, gB]
  | .tuple_ => by simp [S0, gB]
  | .tupleK args => by simp [S0, gB]
  | .listT t => by simp [S0, gB]
  | .setT t => by simp [S0, gB]
  | .dictT k v => by simp [S0, gB]
  | .funcK d args r => by simp [S0, gB]
  | .unionK args => by simp [S0]

theorem s0_axmA : axmA_ord cfg0 nameA anc0 S0P := by
  intro x
  show S0P (Ty.classC nameA) x ↔ _
  simp only [S0P, S0_left, anc0, litA, unionAsSupertypeDisj, cfg0]
  cases x with
  | unionK args =>
    simp only [fA, Bool.and_eq_true, beq_iff_eq, TyList.len_eq, fAAny_iff, notU2All_iff,
      Ty.unionK.injEq, List.mem_cons, List.mem_singleton, List.not_mem_nil]
    constructor
    · rintro ⟨⟨hlen, a, ha, hfa⟩, hall⟩
      exact Or.inr ⟨args, by omega, by omega, rfl,
        ⟨a, ha, by simpa [S0P, S0_left] using hfa⟩, hall⟩
    · rintro (⟨b, hb, heq⟩ | ⟨args2, h2, hle, heq, ⟨a, ha, hS⟩, hall⟩)
      · rcases hb with rfl | rfl | h
        · exact absurd heq (by simp)
        · exact absurd heq (by simp)
        · simp at h
      · cases heq
        refine ⟨⟨by omega, a, ha, ?_⟩, hall⟩
        simpa [S0P, S0_left] using hS
  | object => simp [fA]
  | classC n => simp [fA]
  | type_ i => simp [fA]
  | none_ => simp [fA]
  | complex => simp [fA]
  | float => simp [fA]
  | int => simp [fA]
  | bool => simp [fA]
  | sequence => simp [fA]
  | str_ => simp [fA]
  | bytes_ => simp [fA]
  | tuple_ => simp [fA]
  | tupleK args => simp [fA]
  | listT t => simp [fA]
  | setT t => simp [fA]
  | dictT k v => simp [fA]
  | funcK d args r => simp [fA]

theorem s0_axmB : axmB_ord cfg0 nameA [] S0P := by
  intro x
  show S0P x (Ty.classC nameA) ↔ _
  simp only [S0P, S0_right, cfg0, unionAsSubtypeDisj, List.not_mem_nil]
  cases x with
  | unionK args =>
    simp only [gB, Bool.and_eq_true, beq_iff_eq, TyList.len_eq, gBAll_iff,
      Ty.unionK.injEq]
    constructor
    · rintro ⟨hlen, hall⟩
      refine Or.inr (Or.inr (Or.inr ⟨args, by omega, by omega, rfl, ?_⟩))
      intro a ha
      simpa [S0P, S0_right] using hall a ha
    · rintro ((⟨hfalse, _⟩) | heq | ⟨d, hd, _⟩ | ⟨args2, h2, hle, heq, hall⟩)
      · simp at hfalse
      · simp at heq
      · simp at hd
      · cases heq
        refine ⟨by omega, ?_⟩
        intro a ha
        simpa [S0P, S0_right] using hall a ha
  | classC n => simp [gB, beq_iff_eq]
  | object => simp [gB]
  | type_ i => simp [gB]
  | none_ => simp [gB]
  | complex => simp [gB]
  | float => simp [gB]
  | int => simp [gB]
  | bool => simp [gB]
  | sequence => simp [gB]
  | str_ => simp [gB]
  | bytes_ => simp [gB]
  | tuple_ => simp [gB]
  | tupleK args => simp [gB]
  | listT t => simp [gB]
  | setT t => simp [gB]
  | dictT k v => simp [gB]
  | funcK d args r => simp [gB]

theorem W7_right (a : Ty) : W7 a (Ty.classC nameA) = gBt a := by
  simp [W7]

theorem w7any_iff : ∀ (a : Ty) (ys : TyList),
    w7any a ys = true ↔ ∃ y ∈ ys.toList, W7 a y = true
  | _, .nil => by simp [w7any, TyList.toList]
  | a, .cons y ys => by
    simp [w7any, TyList.toList, Bool.or_eq_true, w7any_iff a ys]

theorem w7ex_iff : ∀ (as : TyList) (y : Ty),
    w7ex as y = true ↔ ∃ a ∈ as.toList, W7 a y = true
  | .nil, _ => by simp [w7ex, TyList.toList]
  | .cons a as, y => by
    simp [w7ex, TyList.toList, Bool.or_eq_true, w7ex_iff as y]

theorem w7allEx_iff : ∀ (args ys : TyList),
    w7allEx args ys = true ↔ ∀ y ∈ ys.toList, ∃ a ∈ args.toList, W7 a y = true
  | args, .nil => by simp [w7allEx, TyList.toList]
  | args, .cons y ys => by
    simp [w7allEx, TyList.toList, Bool.and_eq_true, w7allEx_iff args ys, w7ex_iff args y]


theorem isUnionTm_cfgT (z : Ty) : isUnionTm cfgT z ↔ isUnion2 z :=
  isUnionTm_two cfgT rfl z

theorem isUnionTm_cfg0 (z : Ty) : isUnionTm cfg0 z ↔ isUnion2 z :=
  isUnionTm_two cfg0 rfl z

theorem cfgT_flagP : (cfgT.noneSubAll : Prop) ↔ True := by
  simp [cfgT]

theorem notU2b_iff_not (x : Ty) : (!(isU2b x)) = true ↔ ¬ isUnion2 x := by
  rw [← isU2b_iff]
  cases isU2b x <;> simp

theorem w7third_iff (a : Ty) (ys : TyList) :
    w7third a ys = true ↔ unionAsUnionSubtypeDisj cfgT ys.toList a W7P := by
  cases a with
  | unionK args =>
    simp only [w7third, Bool.and_eq_true, beq_iff_eq, TyList.len_eq, notU2All_iff,
      w7allEx_iff, unionAsUnionSubtypeDisj, Ty.unionK.injEq, W7P, isUnionTm_cfgT]
    constructor
    · rintro ⟨⟨hlen, hnu⟩, hall⟩
      exact ⟨args, by omega, by simp [cfgT]; omega, rfl, hnu, hall⟩
    · rintro ⟨args2, h2, hle, heq, hnu, hall⟩
      cases heq
      exact ⟨⟨by simp [cfgT] at hle; omega, hnu⟩, hall⟩
  | object => simp [w7third, unionAsUnionSubtypeDisj]
  | type_ i => simp [w7third, unionAsUnionSubtypeDisj]
  | none_ => simp [w7third, unionAsUnionSubtypeDisj]
  | complex => simp [w7third, unionAsUnionSubtypeDisj]
  | float => simp [w7third, unionAsUnionSubtypeDisj]
  | int => simp [w7third, unionAsUnionSubtypeDisj]
  | bool => simp [w7third, unionAsUnionSubtypeDisj]
  | sequence => simp [w7third, unionAsUnionSubtypeDisj]
  | str_ => simp [w7third, unionAsUnionSubtypeDisj]
  | bytes_ => simp [w7third, unionAsUnionSubtypeDisj]
  | tuple_ => simp [w7third, unionAsUnionSubtypeDisj]
  | tupleK args => simp [w7third, unionAsUnionSubtypeDisj]
  | listT t => simp [w7third, unionAsUnionSubtypeDisj]
  | setT t => simp [w7third, unionAsUnionSubtypeDisj]
  | dictT k v => simp [w7third, unionAsUnionSubtypeDisj]
  | classC n => simp [w7third, unionAsUnionSubtypeDisj]
  | funcK d args r => simp [w7third, unionAsUnionSubtypeDisj]

theorem w7_axmB_ord : axmB_ord cfgT nameA [] W7P := by
  intro x
  show W7P x (Ty.classC nameA) ↔ _
  simp only [W7P, W7_right, unionAsSubtypeDisj, List.not_mem_nil, cfgT_flagP, true_and]
  cases x with
  | unionK args =>
    simp only [gBt, Bool.and_eq_true, beq_iff_eq, TyList.len_eq, gBtAll_iff,
      Ty.unionK.injEq]
    constructor
    · rintro ⟨hlen, hall⟩
      refine Or.inr (Or.inr (Or.inr ⟨args, by omega, by simp [cfgT]; omega, rfl, ?_⟩))
      intro a ha
      exact hall a ha
    · rintro (heq | heq | ⟨d, hd, _⟩ | ⟨args2, h2, hle, heq, hall⟩)
      · simp at heq
      · simp at heq
      · simp at hd
      · cases heq
        refine ⟨by simp [cfgT] at hle; omega, ?_⟩
        intro a ha
        exact hall a ha
  | classC n => simp [gBt, beq_iff_eq]
  | none_ => simp [gBt]
  | object => simp [gBt]
  | type_ i => simp [gBt]
  | complex => simp [gBt]
  | float => simp [gBt]
  | int => simp [gBt]
  | bool => simp [gBt]
  | sequence => simp [gBt]
  | str_ => simp [gBt]
  | bytes_ => simp [gBt]
  | tuple_ => simp [gBt]
  | tupleK args => simp [gBt]
  | listT t => simp [gBt]
  | setT t => simp [gBt]
  | dictT k v => simp [gBt]
  | funcK d args r => simp [gBt]

theorem w7_axmB_union : axmB_union cfgT 2 W7P := by
  intro x ys hlen
  show W7P x (Ty.unionK ys) ↔ _
  have hl2 : (ys.len == 2) = true := by
    simp [TyList.len_eq, hlen]
  simp only [W7P, W7, hl2, Bool.true_and, Bool.and_eq_true, Bool.or_eq_true,
    decide_eq_true_iff, notU2All_iff, w7any_iff, w7third_iff, notU2b_iff_not,
    isUnionTm_cfgT, cfgT_flagP, true_and, or_assoc]

theorem w6any_iff : ∀ (a : Ty) (ys : TyList),
    w6any a ys = true ↔ ∃ y ∈ ys.toList, W6 a y = true
  | _, .nil => by simp [w6any, TyList.toList]
  | a, .cons y ys => by
    simp [w6any, TyList.toList, Bool.or_eq_true, w6any_iff a ys]

theorem w6all_iff : ∀ (as : TyList) (c : Ty),
    w6all as c = true ↔ ∀ a ∈ as.toList, W6 a c = true
  | .nil, _ => by simp [w6all, TyList.toList]
  | .cons a as, c => by
    simp [w6all, TyList.toList, Bool.and_eq_true, w6all_iff as c]

theorem pairwise_single (S : Ty → Ty → Prop) (t s : Ty) :
    pairwiseSub S [t] [s] ↔ S t s := by
  simp [pairwiseSub]

theorem w6_axmA : axmA_tuple cfg0 1 [Ty.object] W6P := by
  intro x ts hts
  obtain ⟨t, rfl⟩ := toList_len1 ts hts
  show W6P (Ty.tupleK (TyList.cons t TyList.nil)) x ↔ _
  cases x with
  | tupleK ss =>
    cases ss with
    | nil =>
      simp only [W6P, W6, unionAsSupertypeDisj, List.mem_singleton,
        List.not_mem_nil, Ty.tupleK.injEq]
      constructor
      · intro h; simp at h
      · rintro (⟨ss', hlen, heq, _⟩ | heq | ⟨b, hb, heq⟩ | ⟨args, _, _, heq, _⟩)
        · cases heq; simp [TyList.toList] at hlen
        · simp at heq
        · rw [hb] at heq; cases heq
        · cases heq
    | cons s ss2 =>
      cases ss2 with
      | nil =>
        simp only [W6P, W6, Bool.or_eq_true, decide_eq_true_iff,
          Ty.tupleK.injEq, TyList.cons.injEq, unionAsSupertypeDisj,
          List.mem_singleton, List.not_mem_nil, and_true]
        constructor
        · rintro (hw | rfl)
          · exact Or.inl ⟨TyList.cons s TyList.nil, by simp [TyList.toList], rfl,
              by simp [TyList.toList, pairwiseSub, W6P, hw]⟩
          · exact Or.inr (Or.inl rfl)
        · rintro (⟨ss', hlen, heq, hp⟩ | rfl | ⟨b, hb, heq⟩ | ⟨args, _, _, heq, _⟩)
          · cases heq
            have := hp (t, s) (by simp [TyList.toList])
            exact Or.inl this
          · exact Or.inr rfl
          · rw [hb] at heq; cases heq
          · cases heq
      | cons s2 ss3 =>
        simp only [W6P, W6, Ty.tupleK.injEq, TyList.cons.injEq, unionAsSupertypeDisj,
          List.mem_singleton, List.not_mem_nil]
        constructor
        · intro h; simp at h
        · rintro (⟨ss', hlen, heq, hp⟩ | heq | ⟨b, hb, heq⟩ | ⟨args, _, _, heq, _⟩)
          · cases heq
            simp [TyList.toList] at hlen
          · simp at heq
          · rw [hb] at heq; cases heq
          · cases heq
  | object =>
    simp only [W6P, W6, List.mem_singleton, unionAsSupertypeDisj]
    constructor
    · intro _
      exact Or.inr (Or.inr (Or.inl ⟨Ty.object, rfl, rfl⟩))
    · intro _
      trivial
  | unionK args =>
    simp only [W6P, W6, Bool.and_eq_true, beq_iff_eq, TyList.len_eq, w6any_iff,
      notU2All_iff, unionAsSupertypeDisj, Ty.unionK.injEq, List.mem_singleton]
    constructor
    · rintro ⟨⟨hlen, a, ha, hw⟩, hall⟩
      exact Or.inr (Or.inr (Or.inr ⟨args, by omega, by simp [cfg0]; omega, rfl,
        ⟨a, ha, hw⟩, hall⟩))
    · rintro (⟨ss', _, heq, _⟩ | heq | ⟨b, hb, heq⟩ | ⟨args2, h2, hle, heq, ⟨a, ha, hw⟩, hall⟩)
      · cases heq
      · simp at heq
      · rw [hb] at heq; cases heq
      · cases heq
        exact ⟨⟨by simp [cfg0] at hle; omega, a, ha, hw⟩, hall⟩
  | type_ i => simp [W6P, W6, unionAsSupertypeDisj]
  | none_ => simp [W6P, W6, unionAsSupertypeDisj]
  | complex => simp [W6P, W6, unionAsSupertypeDisj]
  | float => simp [W6P, W6, unionAsSupertypeDisj]
  | int => simp [W6P, W6, unionAsSupertypeDisj]
  | bool => simp [W6P, W6, unionAsSupertypeDisj]
  | sequence => simp [W6P, W6, unionAsSupertypeDisj]
  | str_ => simp [W6P, W6, unionAsSupertypeDisj]
  | bytes_ => simp [W6P, W6, unionAsSupertypeDisj]
  | tuple_ => simp [W6P, W6, unionAsSupertypeDisj]
  | listT t2 => simp [W6P, W6, unionAsSupertypeDisj]
  | setT t2 => simp [W6P, W6, unionAsSupertypeDisj]
  | dictT k v => simp [W6P, W6, unionAsSupertypeDisj]
  | funcK d args r => simp [W6P, W6, unionAsSupertypeDisj]
  | classC n => simp [W6P, W6, unionAsSupertypeDisj]

theorem cfg0_flagP : (cfg0.noneSubAll : Prop) ↔ False := by
  simp [cfg0]

theorem w6_axmB : axmB_tuple cfg0 1 [] W6P := by
  intro x ss hss
  obtain ⟨s, rfl⟩ := toList_len1 ss hss
  show W6P x (Ty.tupleK (TyList.cons s TyList.nil)) ↔ _
  simp only [cfg0_flagP, false_and, false_or, List.not_mem_nil, exists_false]
  cases x with
  | tupleK ts =>
    cases ts with
    | nil =>
      simp only [W6P, W6, unionAsSubtypeDisj, Ty.tupleK.injEq]
      constructor
      · intro h; simp at h
      · rintro (⟨ts', hlen, heq, _⟩ | heq | ⟨args, _, _, heq, _⟩)
        · cases heq; simp [TyList.toList] at hlen
        · simp at heq
        · cases heq
    | cons t ts2 =>
      cases ts2 with
      | nil =>
        simp only [W6P, W6, Bool.or_eq_true, decide_eq_true_iff,
          Ty.tupleK.injEq, TyList.cons.injEq, unionAsSubtypeDisj, and_true]
        constructor
        · rintro (hw | rfl)
          · exact Or.inl ⟨TyList.cons t TyList.nil, by simp [TyList.toList], rfl,
              by simp [TyList.toList, pairwiseSub, W6P, hw]⟩
          · exact Or.inr (Or.inl rfl)
        · rintro (⟨ts', hlen, heq, hp⟩ | rfl | ⟨args, _, _, heq, _⟩)
          · cases heq
            have := hp (t, s) (by simp [TyList.toList])
            exact Or.inl this
          · exact Or.inr rfl
          · cases heq
      | cons t2 ts3 =>
        simp only [W6P, W6, Ty.tupleK.injEq, TyList.cons.injEq, unionAsSubtypeDisj]
        constructor
        · intro h; simp at h
        · rintro (⟨ts', hlen, heq, _⟩ | heq | ⟨args, _, _, heq, _⟩)
          · cases heq; simp [TyList.toList] at hlen
          · simp at heq
          · cases heq
  | unionK args =>
    simp only [W6P, W6, Bool.and_eq_true, beq_iff_eq, TyList.len_eq, w6all_iff,
      unionAsSubtypeDisj, Ty.unionK.injEq]
    constructor
    · rintro ⟨hlen, hall⟩
      exact Or.inr (Or.inr ⟨args, by omega, by simp [cfg0]; omega, rfl, hall⟩)
    · rintro (⟨ts', _, heq, _⟩ | heq | ⟨args2, h2, hle, heq, hall⟩)
      · cases heq
      · simp at heq
      · cases heq
        exact ⟨by simp [cfg0] at hle; omega, hall⟩
  | object => simp [W6P, W6, unionAsSubtypeDisj]
  | type_ i => simp [W6P, W6, unionAsSubtypeDisj]
  | none_ => simp [W6P, W6, unionAsSubtypeDisj]
  | complex => simp [W6P, W6, unionAsSubtypeDisj]
  | float => simp [W6P, W6, unionAsSubtypeDisj]
  | int => simp [W6P, W6, unionAsSubtypeDisj]
  | bool => simp [W6P, W6, unionAsSubtypeDisj]
  | sequence => simp [W6P, W6, unionAsSubtypeDisj]
  | str_ => simp [W6P, W6, unionAsSubtypeDisj]
  | bytes_ => simp [W6P, W6, unionAsSubtypeDisj]
  | tuple_ => simp [W6P, W6, unionAsSubtypeDisj]
  | listT t2 => simp [W6P, W6, unionAsSubtypeDisj]
  | setT t2 => simp [W6P, W6, unionAsSubtypeDisj]
  | dictT k v => simp [W6P, W6, unionAsSubtypeDisj]
  | funcK d args r => simp [W6P, W6, unionAsSubtypeDisj]
  | classC n => simp [W6P, W6, unionAsSubtypeDisj]

theorem w3any_iff : ∀ (a : Ty) (ys : TyList),
    w3any a ys = true ↔ ∃ y ∈ ys.toList, W3 a y = true
  | _, .nil => by simp [w3any, TyList.toList]
  | a, .cons y ys => by
    simp [w3any, TyList.toList, Bool.or_eq_true, w3any_iff a ys]

theorem w3all_iff : ∀ (as : TyList) (c : Ty),
    w3all as c = true ↔ ∀ a ∈ as.toList, W3 a c = true
  | .nil, _ => by simp [w3all, TyList.toList]
  | .cons a as, c => by
    simp [w3all, TyList.toList, Bool.and_eq_true, w3all_iff as c]

theorem w3_axmA : axmA_func cfg0 1 [] W3P := by
  intro x n as r has
  obtain ⟨a1, rfl⟩ := toList_len1 as has
  show W3P (Ty.funcK n (TyList.cons a1 TyList.nil) r) x ↔ _
  simp only [List.not_mem_nil, false_and, exists_false, false_or]
  cases x with
  | funcK m bs s =>
    cases bs with
    | nil =>
      simp only [W3P, W3, unionAsSupertypeDisj, Ty.funcK.injEq]
      constructor
      · intro h; simp at h
      · rintro (⟨m', bs', s', hlen, heq, _⟩ | ⟨_, hbs, _⟩ | ⟨args, _, _, heq, _⟩)
        · obtain ⟨rfl, rfl, rfl⟩ := heq
          simp [TyList.toList] at hlen
        · simp at hbs
        · cases heq
    | cons b1 bs2 =>
      cases bs2 with
      | nil =>
        simp only [W3P, W3, Bool.or_eq_true, Bool.and_eq_true, decide_eq_true_iff,
          Ty.funcK.injEq, TyList.cons.injEq, unionAsSupertypeDisj, and_true]
        constructor
        · rintro (⟨hw1, hw2⟩ | ⟨⟨rfl, rfl⟩, rfl⟩)
          · exact Or.inl ⟨m, TyList.cons b1 TyList.nil, s, by simp [TyList.toList],
              ⟨rfl, rfl, rfl⟩, by simp [TyList.toList, pairwiseSub, W3P, hw1], hw2⟩
          · exact Or.inr (Or.inl ⟨rfl, rfl, rfl⟩)
        · rintro (⟨m', bs', s', hlen, heq, hp, hr⟩ | ⟨rfl, rfl, rfl⟩ | ⟨args, _, _, heq, _⟩)
          · obtain ⟨rfl, rfl, rfl⟩ := heq
            have := hp (b1, a1) (by simp [TyList.toList])
            exact Or.inl ⟨this, hr⟩
          · exact Or.inr ⟨⟨rfl, rfl⟩, rfl⟩
          · cases heq
      | cons b2 bs3 =>
        simp only [W3P, W3, Ty.funcK.injEq, TyList.cons.injEq, unionAsSupertypeDisj]
        constructor
        · intro h; simp at h
        · rintro (⟨m', bs', s', hlen, heq, _⟩ | ⟨_, hbs, _⟩ | ⟨args, _, _, heq, _⟩)
          · obtain ⟨rfl, rfl, rfl⟩ := heq
            simp [TyList.toList] at hlen
          · simp at hbs
          · cases heq
  | unionK args =>
    simp only [W3P, W3, Bool.and_eq_true, beq_iff_eq, TyList.len_eq, w3any_iff,
      notU2All_iff, unionAsSupertypeDisj, Ty.unionK.injEq]
    constructor
    · rintro ⟨⟨hlen, a, ha, hw⟩, hall⟩
      exact Or.inr (Or.inr ⟨args, by omega, by simp [cfg0]; omega, rfl, ⟨a, ha, hw⟩, hall⟩)
    · rintro (⟨m', bs', s', _, heq, _⟩ | heq | ⟨args2, h2, hle, heq, ⟨a, ha, hw⟩, hall⟩)
      · obtain ⟨_, _, _⟩ := heq
      · simp at heq
      · cases heq
        exact ⟨⟨by simp [cfg0] at hle; omega, a, ha, hw⟩, hall⟩
  | object => simp [W3P, W3, unionAsSupertypeDisj]
  | type_ i => simp [W3P, W3, unionAsSupertypeDisj]
  | none_ => simp [W3P, W3, unionAsSupertypeDisj]
  | complex => simp [W3P, W3, unionAsSupertypeDisj]
  | float => simp [W3P, W3, unionAsSupertypeDisj]
  | int => simp [W3P, W3, unionAsSupertypeDisj]
  | bool => simp [W3P, W3, unionAsSupertypeDisj]
  | sequence => simp [W3P, W3, unionAsSupertypeDisj]
  | str_ => simp [W3P, W3, unionAsSupertypeDisj]
  | bytes_ => simp [W3P, W3, unionAsSupertypeDisj]
  | tuple_ => simp [W3P, W3, unionAsSupertypeDisj]
  | tupleK args => simp [W3P, W3, unionAsSupertypeDisj]
  | listT t2 => simp [W3P, W3, unionAsSupertypeDisj]
  | setT t2 => simp [W3P, W3, unionAsSupertypeDisj]
  | dictT k v => simp [W3P, W3, unionAsSupertypeDisj]
  | classC nm => simp [W3P, W3, unionAsSupertypeDisj]

theorem w3_axmB : axmB_func cfg0 1 [] W3P := by
  intro x m bs s hbs
  obtain ⟨b1, rfl⟩ := toList_len1 bs hbs
  show W3P x (Ty.funcK m (TyList.cons b1 TyList.nil) s) ↔ _
  simp only [cfg0_flagP, false_and, false_or, List.not_mem_nil, exists_false]
  cases x with
  | funcK n as r =>
    cases as with
    | nil =>
      simp only [W3P, W3, unionAsSubtypeDisj, Ty.funcK.injEq]
      constructor
      · intro h; simp at h
      · rintro (⟨n', as', r', hlen, heq, _⟩ | ⟨_, hbs2, _⟩ | ⟨args, _, _, heq, _⟩)
        · obtain ⟨rfl, rfl, rfl⟩ := heq
          simp [TyList.toList] at hlen
        · simp at hbs2
        · cases heq
    | cons a1 as2 =>
      cases as2 with
      | nil =>
        simp only [W3P, W3, Bool.or_eq_true, Bool.and_eq_true, decide_eq_true_iff,
          Ty.funcK.injEq, TyList.cons.injEq, unionAsSubtypeDisj, and_true]
        constructor
        · rintro (⟨hw1, hw2⟩ | ⟨⟨rfl, rfl⟩, rfl⟩)
          · exact Or.inl ⟨n, TyList.cons a1 TyList.nil, r, by simp [TyList.toList],
              ⟨rfl, rfl, rfl⟩, by simp [TyList.toList, pairwiseSub, W3P, hw1], hw2⟩
          · exact Or.inr (Or.inl ⟨rfl, rfl, rfl⟩)
        · rintro (⟨n', as', r', hlen, heq, hp, hr⟩ | ⟨rfl, rfl, rfl⟩ | ⟨args, _, _, heq, _⟩)
          · obtain ⟨rfl, rfl, rfl⟩ := heq
            have := hp (b1, a1) (by simp [TyList.toList])
            exact Or.inl ⟨this, hr⟩
          · exact Or.inr ⟨⟨rfl, rfl⟩, rfl⟩
          · cases heq
      | cons a2 as3 =>
        simp only [W3P, W3, Ty.funcK.injEq, TyList.cons.injEq, unionAsSubtypeDisj]
        constructor
        · intro h; simp at h
        · rintro (⟨n', as', r', hlen, heq, _⟩ | ⟨_, hbs2, _⟩ | ⟨args, _, _, heq, _⟩)
          · obtain ⟨rfl, rfl, rfl⟩ := heq
            simp [TyList.toList] at hlen
          · simp at hbs2
          · cases heq
  | unionK args =>
    simp only [W3P, W3, Bool.and_eq_true, beq_iff_eq, TyList.len_eq, w3all_iff,
      unionAsSubtypeDisj, Ty.unionK.injEq]
    constructor
    · rintro ⟨hlen, hall⟩
      exact Or.inr (Or.inr ⟨args, by omega, by simp [cfg0]; omega, rfl, hall⟩)
    · rintro (⟨n', as', r', _, heq, _⟩ | heq | ⟨args2, h2, hle, heq, hall⟩)
      · obtain ⟨_, _, _⟩ := heq
      · simp at heq
      · cases heq
        exact ⟨by simp [cfg0] at hle; omega, hall⟩
  | object => simp [W3P, W3, unionAsSubtypeDisj]
  | type_ i => simp [W3P, W3, unionAsSubtypeDisj]
  | none_ => simp [W3P, W3, unionAsSubtypeDisj]
  | complex => simp [W3P, W3, unionAsSubtypeDisj]
  | float => simp [W3P, W3, unionAsSubtypeDisj]
  | int => simp [W3P, W3, unionAsSubtypeDisj]
  | bool => simp [W3P, W3, unionAsSubtypeDisj]
  | sequence => simp [W3P, W3, unionAsSubtypeDisj]
  | str_ => simp [W3P, W3, unionAsSubtypeDisj]
  | bytes_ => simp [W3P, W3, unionAsSubtypeDisj]
  | tuple_ => simp [W3P, W3, unionAsSubtypeDisj]
  | tupleK args => simp [W3P, W3, unionAsSubtypeDisj]
  | listT t2 => simp [W3P, W3, unionAsSubtypeDisj]
  | setT t2 => simp [W3P, W3, unionAsSubtypeDisj]
  | dictT k v => simp [W3P, W3, unionAsSubtypeDisj]
  | classC nm => simp [W3P, W3, unionAsSubtypeDisj]

theorem replicate_getD (a d : NodeName) :
    ∀ (k i : Nat), i < k → (List.replicate k a).getD i d = a := by
  intro k
  induction k with
  | zero => intro i h; omega
  | succ k ih =>
    intro i h
    cases i with
    | zero => simp [List.replicate]
    | succ i => simpa [List.replicate] using ih i (by omega)

theorem ctStep_exC1 (n : Nat) : ctStep exC1 (stC1 n) = CTRes.running (stC1 (n + 1)) := by
  have hlt : n < (List.replicate (n + 1) (NodeName.str nameA)).length := by simp
  have hget : (List.replicate (n + 1) (NodeName.str nameA)).getD n (NodeName.str emptyS2) =
      NodeName.str nameA := replicate_getD _ _ _ _ (by omega)
  have hbases : lookupBases exC1 (NodeName.str nameA) = [NodeName.str nameB] := by decide
  have hany : ([NodeName.str nameB].any
      (fun b => !([NodeName.str objName].contains b))) = true := by decide
  simp only [ctStep, stC1, List.length_replicate, hget, hbases]
  rw [if_pos (by omega : n < n + 1)]
  simp only [hany, if_pos rfl]
  have : List.replicate (n + 1) (NodeName.str nameA) ++ [NodeName.str nameA] =
      List.replicate (n + 1 + 1) (NodeName.str nameA) := by
    rw [← List.replicate_succ']
  simp [this]

theorem ctIter_exC1 : ∀ (f m : Nat),
    ctIter exC1 f (CTRes.running (stC1 m)) = CTRes.running (stC1 (m + f))
  | 0, m => by simp [ctIter]
  | f + 1, m => by
    have h1 : ctIter exC1 (f + 1) (CTRes.running (stC1 m)) =
        ctIter exC1 f (ctStep exC1 (stC1 m)) := rfl
    rw [h1, ctStep_exC1, ctIter_exC1 f (m + 1)]
    congr 2
    omega

/-- Claim C1: on the input `{A: [B]}` with `B` undeclared, the worklist of
`create_class_tree` requeues `A` forever: after any number of iterations
the loop is still running, with `to_cover` grown to `n + 1` copies of `A`
and nothing materialized; no configuration error is ever raised and the
construction never terminates, contradicting the specified behaviour. -/
theorem c1_class_tree_loops_forever :
    ∀ fuel : Nat, create_class_tree exC1 fuel = CTRes.running (stC1 fuel) := by
  intro fuel
  have h0 : ctInit exC1 = stC1 0 := by decide
  show ctIter exC1 fuel (CTRes.running (ctInit exC1)) = _
  rw [h0, ctIter_exC1, Nat.zero_add]

/-- Claim C5: for a class node with ancestor literals `ancLits` (from
`all_parents`, which contains the node itself), any interpretation
satisfying the node's two generated axioms relates the class to itself
(via Axiom B's own-literal disjunct) and to every ancestor literal (via
Axiom A's ancestor disjuncts). -/
theorem c5_reflexivity_and_ancestors (cfg : Config) (nm : String)
    (ancLits descLits : List Ty) (bLit : Ty) (S : Ty → Ty → Prop)
    (hA : axmA_ord cfg nm ancLits S) (hB : axmB_ord cfg nm descLits S)
    (hmem : bLit ∈ ancLits) :
    S (Ty.classC nm) (Ty.classC nm) ∧ S (Ty.classC nm) bLit := by
  constructor
  · exact (hB (Ty.classC nm)).mpr (Or.inr (Or.inl rfl))
  · exact (hA bLit).mpr (Or.inl ⟨bLit, hmem, rfl⟩)

theorem c5_witness :
    ancRunC5 = anc0 ∧
    S0P (Ty.classC nameA) (Ty.classC nameA) ∧ S0P (Ty.classC nameA) Ty.object := by
  have h := c5_reflexivity_and_ancestors cfg0 nameA anc0 [] Ty.object S0P
    s0_axmA s0_axmB (by decide)
  exact ⟨by decide, h.1, h.2⟩

/-- Claim C6 (amended scope from the claim text itself): for the `tuple_k`
node, element-wise covariance implies the tuple subtyping from either of
the node's two axioms, and when some component fails and no other disjunct
(the node's own literal, an ancestor literal) applies, the subtyping fails. -/
theorem c6_tuple_covariance (cfg : Config) (k : Nat) (ancLits descLits : List Ty)
    (ts ss : TyList) (hts : ts.toList.length = k) (hss : ss.toList.length = k) :
    (∀ S : Ty → Ty → Prop, axmA_tuple cfg k ancLits S →
      pairwiseSub S ts.toList ss.toList → S (Ty.tupleK ts) (Ty.tupleK ss)) ∧
    (∀ S : Ty → Ty → Prop, axmB_tuple cfg k descLits S →
      pairwiseSub S ts.toList ss.toList → S (Ty.tupleK ts) (Ty.tupleK ss)) ∧
    (∀ S : Ty → Ty → Prop, axmA_tuple cfg k ancLits S →
      ¬ pairwiseSub S ts.toList ss.toList → ts ≠ ss → Ty.tupleK ss ∉ ancLits →
      ¬ S (Ty.tupleK ts) (Ty.tupleK ss)) := by
  refine ⟨fun S hA hp => ?_, fun S hB hp => ?_, fun S hA hnp hne hna hS => ?_⟩
  · exact (hA (Ty.tupleK ss) ts hts).mpr (Or.inl ⟨ss, hss, rfl, hp⟩)
  · exact (hB (Ty.tupleK ts) ss hss).mpr (Or.inr (Or.inl ⟨ts, hts, rfl, hp⟩))
  · rcases (hA (Ty.tupleK ss) ts hts).mp hS with
      ⟨ss2, hss2, heq, hp2⟩ | heq | ⟨b, hb, rfl⟩ | ⟨args, _, _, heq, _⟩
    · cases heq
      exact hnp hp2
    · injection heq with h2
      exact hne h2.symm
    · exact hna hb
    · cases heq

theorem c6_witness :
    W6P (Ty.tupleK (tyl1 (Ty.tupleK (tyl1 Ty.int)))) (Ty.tupleK (tyl1 Ty.object)) ∧
    ¬ W6P (Ty.tupleK (tyl1 Ty.int)) (Ty.tupleK (tyl1 Ty.object)) := by
  constructor
  · refine (c6_tuple_covariance cfg0 1 [Ty.object] [] (tyl1 (Ty.tupleK (tyl1 Ty.int)))
      (tyl1 Ty.object) (by simp [tyl1, TyList.toList]) (by simp [tyl1, TyList.toList])).1
      W6P w6_axmA ?_
    intro p hp
    simp only [tyl1, TyList.toList, List.zip_cons_cons, List.zip_nil_right,
      List.mem_singleton] at hp
    subst hp
    show W6 (Ty.tupleK (TyList.cons Ty.int TyList.nil)) Ty.object = true
    simp [W6]
  · refine (c6_tuple_covariance cfg0 1 [Ty.object] [] (tyl1 Ty.int)
      (tyl1 Ty.object) (by simp [tyl1, TyList.toList]) (by simp [tyl1, TyList.toList])).2.2
      W6P w6_axmA ?_ (by decide) (by decide)
    intro hp
    have := hp (Ty.int, Ty.object) (by simp [tyl1, TyList.toList])
    have hfalse : W6 Ty.int Ty.object = false := by
      rw [W6.eq_def]
    have h2 : W6 Ty.int Ty.object = true := this
    rw [hfalse] at h2
    simp at h2

/-- Claim C2 amended: at a class node whose ancestor and descendant
literals are not unions, an interpretation satisfying the node's two
axioms relates the class below a union exactly when it is below some
member *and additionally no member is an arity-2 union term* (the guard
the generated axiom actually carries, z3_types.py lines 331-332); the
union-below-class direction holds exactly as the claim states it, with no
non-union side condition. -/
theorem c2_union_subtyping_amended (cfg : Config) (nm : String)
    (ancLits descLits : List Ty) (S : Ty → Ty → Prop) (us : TyList)
    (hA : axmA_ord cfg nm ancLits S) (hB : axmB_ord cfg nm descLits S)
    (hanc : ∀ b ∈ ancLits, ∀ args : TyList, b ≠ Ty.unionK args)
    (hdesc : ∀ d ∈ descLits, ∀ args : TyList, d ≠ Ty.unionK args)
    (h2 : 2 ≤ us.toList.length) (hle : us.toList.length ≤ cfg.maxUnion)
    (hnu2 : ∀ u ∈ us.toList, ¬ isUnion2 u) :
    (S (Ty.classC nm) (Ty.unionK us) ↔ ∃ u ∈ us.toList, S (Ty.classC nm) u) ∧
    (S (Ty.unionK us) (Ty.classC nm) ↔ ∀ u ∈ us.toList, S u (Ty.classC nm)) := by
  constructor
  · rw [hA (Ty.unionK us)]
    constructor
    · rintro (⟨b, hb, heq⟩ | ⟨args, _, _, heq, ⟨a, ha, hS⟩, _⟩)
      · exact absurd heq.symm (hanc b hb us)
      · cases heq
        exact ⟨a, ha, hS⟩
    · rintro ⟨u, hu, hS⟩
      exact Or.inr ⟨us, h2, hle, rfl, ⟨u, hu, hS⟩, hnu2⟩
  · rw [hB (Ty.unionK us)]
    constructor
    · rintro (⟨hflag, heq⟩ | heq | ⟨d, hd, heq⟩ | ⟨args, _, _, heq, hall⟩)
      · exact absurd heq (by simp)
      · exact absurd heq (by simp)
      · exact absurd heq.symm (hdesc d hd us)
      · cases heq
        exact hall
    · intro hall
      exact Or.inr (Or.inr (Or.inr ⟨us, h2, hle, rfl, hall⟩))

theorem c2_counterexample : ¬ claimC2 := by
  intro h
  have hc := h S0P s0_axmA s0_axmB (tyl2 litA (Ty.unionK (tyl2 litA litA)))
    (by simp [tyl2, TyList.toList]) (by simp [tyl2, TyList.toList, cfg0])
  have hrhs : ∃ u ∈ (tyl2 litA (Ty.unionK (tyl2 litA litA))).toList, S0P litA u :=
    ⟨litA, by simp [tyl2, TyList.toList], (by decide : S0 litA litA = true)⟩
  have hlhs := hc.1.mpr hrhs
  have hno : ¬ (S0 litA (Ty.unionK (tyl2 litA (Ty.unionK (tyl2 litA litA)))) = true) := by
    decide
  exact hno hlhs

theorem c2_witness :
    (S0P (Ty.classC nameA) (Ty.unionK (tyl2 litA Ty.object)) ↔
      ∃ u ∈ (tyl2 litA Ty.object).toList, S0P (Ty.classC nameA) u) ∧
    (S0P (Ty.unionK (tyl2 litA Ty.object)) (Ty.classC nameA) ↔
      ∀ u ∈ (tyl2 litA Ty.object).toList, S0P u (Ty.classC nameA)) := by
  exact c2_union_subtyping_amended cfg0 nameA anc0 [] S0P (tyl2 litA Ty.object)
    s0_axmA s0_axmB
    (by intro b hb args
        simp [anc0] at hb
        rcases hb with rfl | rfl <;> simp [litA])
    (by intro d hd args
        simp at hd)
    (by simp [tyl2, TyList.toList]) (by simp [tyl2, TyList.toList, cfg0])
    (by intro u hu
        simp [tyl2, TyList.toList] at hu
        rcases hu with rfl | rfl
        · rintro ⟨a, b, heq⟩
          simp [litA] at heq
        · rintro ⟨a, b, heq⟩
          simp at heq)

/-- Claim C3 amended: at the `func_k` node with no function-shaped
ancestor or descendant literals, an interpretation satisfying either
generated axiom relates two `func_k` terms exactly when the variance
conditions hold (contravariant arguments, covariant return, defaults
ignored) *or the two terms are syntactically identical including their
default-argument counts* — the extra disjunct comes from the node's own
literal appearing in `all_parents`/`all_children`. -/
theorem c3_func_variance_amended (cfg : Config) (k : Nat)
    (ancLits descLits : List Ty) (n : Int) (as : TyList) (r : Ty)
    (m : Int) (bs : TyList) (s : Ty)
    (has : as.toList.length = k) (hbs : bs.toList.length = k)
    (hanc : ∀ b ∈ ancLits, ∀ (d : Int) (l : TyList) (t : Ty), b ≠ Ty.funcK d l t)
    (hdesc : ∀ d2 ∈ descLits, ∀ (d : Int) (l : TyList) (t : Ty), d2 ≠ Ty.funcK d l t) :
    (∀ S : Ty → Ty → Prop, axmA_func cfg k ancLits S →
      (S (Ty.funcK n as r) (Ty.funcK m bs s) ↔
        ((pairwiseSub S bs.toList as.toList ∧ S r s) ∨ (n = m ∧ as = bs ∧ r = s)))) ∧
    (∀ S : Ty → Ty → Prop, axmB_func cfg k descLits S →
      (S (Ty.funcK n as r) (Ty.funcK m bs s) ↔
        ((pairwiseSub S bs.toList as.toList ∧ S r s) ∨ (n = m ∧ as = bs ∧ r = s)))) := by
  constructor
  · intro S hA
    rw [hA (Ty.funcK m bs s) n as r has]
    constructor
    · rintro (⟨m2, bs2, s2, hlen, heq, hp, hr⟩ | heq | ⟨b, hb, heq⟩ | ⟨args, _, _, heq, _⟩)
      · cases heq
        exact Or.inl ⟨hp, hr⟩
      · injection heq with h1 h2 h3
        exact Or.inr ⟨h1.symm, h2.symm, h3.symm⟩
      · exact absurd heq.symm (hanc b hb m bs s)
      · cases heq
    · rintro (⟨hp, hr⟩ | ⟨rfl, rfl, rfl⟩)
      · exact Or.inl ⟨m, bs, s, hbs, rfl, hp, hr⟩
      · exact Or.inr (Or.inl rfl)
  · intro S hB
    rw [hB (Ty.funcK n as r) m bs s hbs]
    constructor
    · rintro (⟨hflag, heq⟩ | ⟨n2, as2, r2, hlen, heq, hp, hr⟩ | heq | ⟨d2, hd, heq⟩ |
        ⟨args, _, _, heq, _⟩)
      · exact absurd heq (by simp)
      · cases heq
        exact Or.inl ⟨hp, hr⟩
      · injection heq with h1 h2 h3
        exact Or.inr ⟨h1, h2, h3⟩
      · exact absurd heq.symm (hdesc d2 hd n as r)
      · cases heq
    · rintro (⟨hp, hr⟩ | ⟨rfl, rfl, rfl⟩)
      · exact Or.inr (Or.inl ⟨n, as, r, has, rfl, hp, hr⟩)
      · exact Or.inr (Or.inr (Or.inl rfl))

theorem c3_counterexample : ¬ claimC3 := by
  intro h
  have hc := h W3P w3_axmA w3_axmB 0 (tyl1 Ty.int) Ty.int 0 (tyl1 Ty.int) Ty.int
    (by simp [tyl1, TyList.toList]) (by simp [tyl1, TyList.toList])
  have hLHS : W3 (Ty.funcK 0 (tyl1 Ty.int) Ty.int) (Ty.funcK 0 (tyl1 Ty.int) Ty.int) = true := by
    simp [tyl1, W3]
  have hret := (hc.mp hLHS).2
  have hint : W3 Ty.int Ty.int = false := by
    rw [W3.eq_def]
  have h2 : W3 Ty.int Ty.int = true := hret
  rw [hint] at h2
  simp at h2

theorem c3_witness :
    (W3P (Ty.funcK 5 (tyl1 f0) f0) (Ty.funcK 7 (tyl1 f0) f0) ↔
      ((pairwiseSub W3P (tyl1 f0).toList (tyl1 f0).toList ∧ W3P f0 f0) ∨
        ((5 : Int) = 7 ∧ tyl1 f0 = tyl1 f0 ∧ f0 = f0))) ∧
    W3P (Ty.funcK 5 (tyl1 f0) f0) (Ty.funcK 7 (tyl1 f0) f0) := by
  have h := (c3_func_variance_amended cfg0 1 [] [] 5 (tyl1 f0) f0 7 (tyl1 f0) f0
    (by simp [tyl1, TyList.toList]) (by simp [tyl1, TyList.toList])
    (by intro b hb; simp at hb) (by intro d2 hd; simp at hd)).1 W3P w3_axmA
  refine ⟨h, h.mpr (Or.inl ⟨?_, ?_⟩)⟩
  · intro p hp
    simp only [tyl1, TyList.toList, List.zip_cons_cons, List.zip_nil_right,
      List.mem_singleton] at hp
    subst hp
    show W3 f0 f0 = true
    simp [f0, tyl1, W3]
  · show W3 f0 f0 = true
    simp [f0, tyl1, W3]

/-- Claim C7 amended: the `x = none` disjunct of Axiom B is present
exactly when the flag is set (it is the first disjunct of `axmB_ord`,
`axmB_tuple`, `axmB_func`, `axmB_union`, guarded by `cfg.noneSubAll`).
With the flag set, `subtype(none, X)` follows for every class literal and
for every arity-2 union whose members are non-union, but Axiom B of the
union node *forces* `subtype(none, X)` to be false for a union with a
union member, so no interpretation satisfying the axioms relates `none`
below every type.  With the flag unset, an interpretation satisfying
Axiom B of a class node with no descendants need not relate `none` below
that class. -/
theorem c7_none_flag_amended (cfg : Config) (nm : String) (descLits : List Ty)
    (hflag : cfg.noneSubAll = true) :
    (∀ S : Ty → Ty → Prop, axmB_ord cfg nm descLits S → S Ty.none_ (Ty.classC nm)) ∧
    (∀ S : Ty → Ty → Prop, axmB_union cfg 2 S → ∀ ys : TyList,
      ys.toList.length = 2 → (∀ y ∈ ys.toList, ¬ isUnionTm cfg y) →
      S Ty.none_ (Ty.unionK ys)) ∧
    (∀ S : Ty → Ty → Prop, axmB_union cfg 2 S → ∀ ys : TyList,
      ys.toList.length = 2 → ¬ (∀ y ∈ ys.toList, ¬ isUnionTm cfg y) →
      ¬ S Ty.none_ (Ty.unionK ys)) ∧
    (∃ T : Ty → Ty → Prop, axmB_ord cfg0 nameA [] T ∧ ¬ T Ty.none_ (Ty.classC nameA)) := by
  refine ⟨fun S hB => ?_, fun S hBu ys hlen hnu => ?_,
    fun S hBu ys hlen hnu hS => ?_, ⟨S0P, s0_axmB, ?_⟩⟩
  · exact (hB Ty.none_).mpr (Or.inl ⟨by simp [hflag], rfl⟩)
  · exact (hBu Ty.none_ ys hlen).mpr ⟨hnu, Or.inl ⟨by simp [hflag], rfl⟩⟩
  · exact hnu ((hBu Ty.none_ ys hlen).mp hS).1
  · intro hT
    have hno : ¬ (S0 Ty.none_ (Ty.classC nameA) = true) := by decide
    exact hno hT

theorem c7_counterexample : ¬ claimC7 := by
  intro h
  have hforced := h W7P w7_axmB_ord w7_axmB_union nestedU
  have hnu2 : notU2All (tyl2 (Ty.unionK (tyl2 litA litA)) litA) = false := by decide
  have hval : W7 Ty.none_ nestedU = false := by
    simp [nestedU, W7, hnu2]
  have h2 : W7 Ty.none_ nestedU = true := hforced
  rw [hval] at h2
  simp at h2

theorem c7_witness :
    W7P Ty.none_ (Ty.classC nameA) ∧
    W7P Ty.none_ (Ty.unionK (tyl2 litA Ty.object)) ∧
    ¬ W7P Ty.none_ nestedU ∧
    (∃ T : Ty → Ty → Prop, axmB_ord cfg0 nameA [] T ∧ ¬ T Ty.none_ (Ty.classC nameA)) := by
  have h := c7_none_flag_amended cfgT nameA [] rfl
  refine ⟨h.1 W7P w7_axmB_ord, ?_, ?_, h.2.2.2⟩
  · refine h.2.1 W7P w7_axmB_union (tyl2 litA Ty.object)
      (by simp [tyl2, TyList.toList]) ?_
    intro y hy
    rw [isUnionTm_cfgT]
    simp [tyl2, TyList.toList] at hy
    rcases hy with rfl | rfl
    · rintro ⟨a, b, heq⟩
      simp [litA] at heq
    · rintro ⟨a, b, heq⟩
      simp at heq
  · refine h.2.2.1 W7P w7_axmB_union (tyl2 (Ty.unionK (tyl2 litA litA)) litA)
      (by simp [tyl2, TyList.toList]) ?_
    intro hall
    have := hall (Ty.unionK (tyl2 litA litA)) (by simp [tyl2, TyList.toList])
    rw [isUnionTm_cfgT] at this
    exact this ⟨litA, litA, rfl⟩

theorem c4_counterexample : ¬ claimC4 := by
  intro h
  have h1 := (h true (NodeName.str noneName)).mp (by decide)
  exact absurd h1.2 (by decide)

/-- Claim C4 amended: the guard at z3_types.py line 200 skips Axiom A
exactly for the none pseudo-class *with the flag set* — the opposite
polarity from the claim: for every other node, and for none with the flag
unset, Axiom A is emitted. -/
theorem c4_none_suppression_amended : ∀ (flag : Bool) (nm : NodeName),
    emitAGuard nm flag = false ↔ (nm = NodeName.str noneName ∧ flag = true) := by
  intro flag nm
  by_cases hnm : nm = NodeName.str noneName
  · subst hnm
    cases flag <;> simp [emitAGuard]
  · simp [emitAGuard, hnm]

theorem lookup_attr_val (cls : String) : ∀ (l : List String) (attr c : String),
    (l.map (fun a => (a, attrConstName cls a))).lookup attr = Option.some c →
    c = attrConstName cls attr
  | [], attr, c => by
    intro h
    simp [List.lookup] at h
  | a :: l, attr, c => by
    intro h
    by_cases hab : a = attr
    · subst hab
      simp [List.lookup] at h
      exact h.symm
    · have hba : (attr == a) = false := by
        simp only [beq_eq_false_iff_ne, Ne]
        intro hh
        exact hab hh.symm
      rw [List.map_cons, List.lookup, hba] at h
      exact lookup_attr_val cls l attr c h

theorem cca_lookup_shape : ∀ (m : List (String × List String)) (cls : String)
    (attrs : List (String × String)),
    (create_classes_attributes m).lookup cls = Option.some attrs →
    ∃ l : List String, attrs = l.map (fun a => (a, attrConstName cls a))
  | [], cls, attrs => by
    intro h
    simp [create_classes_attributes, List.lookup] at h
  | p :: m, cls, attrs => by
    intro h
    rw [create_classes_attributes, List.map_cons, List.lookup] at h
    by_cases hpc : p.1 = cls
    · have hcp : (cls == p.1) = true := by
        simp [beq_iff_eq, hpc]
      rw [hcp] at h
      obtain rfl : (dedupKeepFirst p.2).map (fun attr => (attr, attrConstName p.1 attr)) =
          attrs := by simpa using h
      subst hpc
      exact ⟨dedupKeepFirst p.2, rfl⟩
    · have hcp : (cls == p.1) = false := by
        simp only [beq_eq_false_iff_ne, Ne]
        intro hh
        exact hpc hh.symm
      rw [hcp] at h
      exact cca_lookup_shape m cls attrs h

/-- Claim C8 amended: each table maps a (class, attribute) pair to the
constant deterministically named `class_{cls}_attr_{attr}`; since a Z3
constant is identified by its name and sort, the instance-level and
class-level tables hold the *same* constant for the same pair (they are
separate maps, but their values coincide); class order and per-class
attribute declaration order are preserved. -/
theorem c8_attr_tables_amended :
    (∀ (m : List (String × List String)) (cls attr c : String),
      lookupAttrConst (create_classes_attributes m) cls attr = Option.some c →
      c = attrConstName cls attr) ∧
    (∀ (m1 m2 : List (String × List String)) (cls attr : String),
      (lookupAttrConst (create_classes_attributes m1) cls attr).isSome →
      (lookupAttrConst (create_classes_attributes m2) cls attr).isSome →
      lookupAttrConst (create_classes_attributes m1) cls attr =
        lookupAttrConst (create_classes_attributes m2) cls attr) ∧
    (∀ m : List (String × List String),
      (create_classes_attributes m).map Prod.fst = m.map Prod.fst) ∧
    (∀ (m : List (String × List String)) (p : String × List (String × String)),
      p ∈ create_classes_attributes m →
      ∃ q ∈ m, p.1 = q.1 ∧ p.2.map Prod.fst = dedupKeepFirst q.2) := by
  have hname : ∀ (m : List (String × List String)) (cls attr c : String),
      lookupAttrConst (create_classes_attributes m) cls attr = Option.some c →
      c = attrConstName cls attr := by
    intro m cls attr c h
    unfold lookupAttrConst at h
    cases hm : (create_classes_attributes m).lookup cls with
    | none => rw [hm] at h; cases h
    | some attrs =>
      rw [hm] at h
      obtain ⟨l, rfl⟩ := cca_lookup_shape m cls attrs hm
      exact lookup_attr_val cls l attr c h
  refine ⟨hname, ?_, ?_, ?_⟩
  · intro m1 m2 cls attr h1 h2
    obtain ⟨c1, hc1⟩ := Option.isSome_iff_exists.mp h1
    obtain ⟨c2, hc2⟩ := Option.isSome_iff_exists.mp h2
    rw [hc1, hc2, hname m1 cls attr c1 hc1, hname m2 cls attr c2 hc2]
  · intro m
    rw [create_classes_attributes, List.map_map]
    rfl
  · intro m p hp
    rw [create_classes_attributes] at hp
    obtain ⟨q, hq, rfl⟩ := List.mem_map.mp hp
    refine ⟨q, hq, rfl, ?_⟩
    rw [List.map_map]
    exact List.map_id _

theorem c8_counterexample : ¬ claimC8 := by
  intro h
  exact (h (attrConstName nameA attrX) (by decide)) (by decide)

theorem c8_witness :
    lookupAttrConst (create_classes_attributes exInstAttrs) nameA attrX =
      lookupAttrConst (create_classes_attributes exClsAttrs) nameA attrX ∧
    (create_classes_attributes exInstAttrs).map Prod.fst = exInstAttrs.map Prod.fst := by
  exact ⟨c8_attr_tables_amended.2.1 exInstAttrs exClsAttrs nameA attrX
    (by decide) (by decide), c8_attr_tables_amended.2.2.1 exInstAttrs⟩

/-- Claim C9: on a class set containing the `union_2` pseudo-class node,
the generator emits the per-node axioms *and* writes the two debug lines
to stdout (the `print` calls at z3_types.py lines 245-246 and 294-295),
so `create_subtype_axioms` does not produce its axiom list without output. -/
theorem c9_debug_print_output :
    printedOf (createSubtypeTags cfg0 exRender exC9 10) = [patA, patB] ∧
    tagsOf (createSubtypeTags cfg0 exRender exC9 10) =
      [(NodeName.str objName, ABSide.A), (NodeName.str objName, ABSide.B),
        (u2Name, ABSide.A), (u2Name, ABSide.B)] := by
  constructor <;> rfl

theorem c10_counterexample : ¬ claimC10serves := by
  rintro ⟨s, hs⟩
  have hcrash : create_class_tree exC10b 20 = CTRes.crash := by rfl
  rw [hcrash] at hs
  cases hs

/-- Claim C10 amended: a declared class with an empty base list (`A` in
`{A: []}`) is materialized as an orphan node — present in the node table,
marked covered, with no parents — but never attached as anyone's child, so
it is absent from the root's transitive children and no axioms are emitted
for it; and because `graph.find` only searches root-reachable nodes, it
can *not* serve as a base for later classes: on `{A: [], B: [A]}` the
lookup of `A` fails and materializing `B` crashes instead of linking. -/
theorem c10_orphan_amended :
    create_class_tree exC10a 10 = CTRes.done stOrphan ∧
    stOrphan.covered.contains (NodeName.str nameA) = true ∧
    stOrphan.g.parentsL.getD 1 [] = [] ∧
    Graph.allChildrenIds gOrphan = [0] ∧
    tagsOf (createSubtypeTags cfg0 exRender exC10a 10) =
      [(NodeName.str objName, ABSide.A), (NodeName.str objName, ABSide.B)] ∧
    Graph.find gOrphan (NodeName.str nameA) = Option.none ∧
    create_class_tree exC10b 20 = CTRes.crash := by
  refine ⟨rfl, rfl, rfl, rfl, rfl, rfl, rfl⟩
